import Mathlib

/-!
Pairwise-ranking matrix factorisation (`src/model/recsys/bpr.hpp`).

A shallow embedding of `libcf::BPR`: the pairwise update `train_one_pair` and the epoch
driver `train_one_iteration`.

Conventions of the embedding.

* The arithmetic of `double` is left uninterpreted in the definitions: they are written
  over any type `R` that has `+`, `-`, `*`, `/`, negation and the literals 1 and 2, in the
  order in which the source applies them, and `std::sqrt` is a function `sqrt : R → R`
  supplied by the environment. A theorem that restates the code's own expressions holds
  for every such `R`. A theorem that needs algebra is stated over a field, that is for
  exact arithmetic, and says so.
* `F64` is IEEE-754 binary64 with rounding to nearest, ties to even: every operation is the
  exact operation followed by rounding, with overflow to an infinity, gradual underflow
  and a not-a-number. It is the arithmetic the compiled code runs on when every operation
  is rounded by itself; in the binary64 examples of this file every product is exact or is
  added to 0, so a fused multiply-add gives the same values.
* An Eigen matrix is a function `row → column → R`, a vector a function `index → R`; a row
  assignment is `Function.update` on the row index. Only columns below `num_dim_` are
  meaningful, the formulas are the same for every column.
* The collaborators that `bpr.hpp` calls but does not define (`predict_user_item_rating`
  and `sample_negative_item` of the base class `IMF`, `Loss::gradient`) are fields of
  `Collab`.
* The pseudo-random source of the sampler is an explicit generator state of type `G`.
-/

namespace libcf

/-- The object state that `bpr.hpp` reads or writes: the configuration copied by the
constructor (lines 29-35) and the members inherited from `IMF` (sizes, the per-user
interaction map, the parameter matrices and their squared-gradient accumulators).
`user_rated_items_ uid` is `none` when `find(uid)` returns `end()`, and otherwise the keys
of the user's item map in iteration order. -/
structure BPR (R : Type) where
  learn_rate_ : R
  beta_ : R
  lambda_ : R
  num_dim_ : Nat
  num_neg_ : Nat
  using_bias_term_ : Bool
  using_adagrad_ : Bool
  num_users_ : Nat
  num_items_ : Nat
  user_rated_items_ : Nat → Option (List Nat)
  uv_ : Nat → Nat → R
  iv_ : Nat → Nat → R
  ib_ : Nat → R
  uv_ag_ : Nat → Nat → R
  iv_ag_ : Nat → Nat → R
  ib_ag_ : Nat → R

/-- The functions `bpr.hpp` calls without defining them. `gradient` is
`loss_->gradient(pred, truth)`; `sample_negative_item` consumes the generator state. -/
structure Collab (R G : Type) where
  predict_user_item_rating : BPR R → Nat → Nat → R
  gradient : R → R → R
  sqrt : R → R
  sample_negative_item : List Nat → G → Nat × G

/-- The object together with the five gradient locals of `train_one_pair`. -/
structure Locals (R : Type) where
  self : BPR R
  ib_grad : R
  jb_grad : R
  uv_grad : Nat → R
  iv_grad : Nat → R
  jv_grad : Nat → R

section update
variable {R G : Type}

/-- Lines 73-76: the two predictions, their difference and the loss gradient at it. -/
def pair_gradient [Sub R] (env : Collab R G) (m : BPR R) (uid iid jid : Nat) (rui : R) : R :=
  let pred_i := env.predict_user_item_rating m uid iid
  let pred_j := env.predict_user_item_rating m uid jid
  let pred_ij := pred_i - pred_j
  env.gradient pred_ij rui

/-- Lines 78-82: the five raw gradients for a loss gradient `gradient`, all read from the
object before anything is written. -/
def raw_gradients_at [Add R] [Sub R] [Mul R] [Neg R] [OfNat R 2] (m : BPR R) (gradient : R)
    (uid iid jid : Nat) : Locals R :=
  { self := m
    ib_grad := gradient + 2 * m.lambda_ * m.ib_ iid
    jb_grad := - gradient + 2 * m.lambda_ * m.ib_ jid
    uv_grad := fun k => gradient * (m.iv_ iid k - m.iv_ jid k) + 2 * m.lambda_ * m.uv_ uid k
    iv_grad := fun k => gradient * m.uv_ uid k + 2 * m.lambda_ * m.iv_ iid k
    jv_grad := fun k => - gradient * m.uv_ uid k + 2 * m.lambda_ * m.iv_ jid k }

/-- Lines 73-82: the loss gradient and, from it, the five raw gradients. -/
def raw_gradients [Add R] [Sub R] [Mul R] [Neg R] [OfNat R 2] (env : Collab R G) (m : BPR R)
    (uid iid jid : Nat) (rui : R) : Locals R :=
  raw_gradients_at m (pair_gradient env m uid iid jid rui) uid iid jid

/-- Lines 86-89: the bias part of the adaptive block, statement by statement. -/
def adagrad_bias [Add R] [Mul R] [Div R] (env : Collab R G) (iid jid : Nat) (l : Locals R) :
    Locals R :=
  let ag1 := Function.update l.self.ib_ag_ iid (l.self.ib_ag_ iid + l.ib_grad * l.ib_grad)
  let ag2 := Function.update ag1 jid (ag1 jid + l.jb_grad * l.jb_grad)
  { l with
    self := { l.self with ib_ag_ := ag2 }
    ib_grad := l.ib_grad / (l.self.beta_ + env.sqrt (ag2 iid))
    jb_grad := l.jb_grad / (l.self.beta_ + env.sqrt (ag2 jid)) }

/-- Lines 91-96: the vector part of the adaptive block, statement by statement. -/
def adagrad_vectors [Add R] [Mul R] [Div R] (env : Collab R G) (uid iid jid : Nat)
    (l : Locals R) : Locals R :=
  let uag := Function.update l.self.uv_ag_ uid
    (fun k => l.self.uv_ag_ uid k + l.uv_grad k * l.uv_grad k)
  let iag1 := Function.update l.self.iv_ag_ iid
    (fun k => l.self.iv_ag_ iid k + l.iv_grad k * l.iv_grad k)
  let iag2 := Function.update iag1 jid (fun k => iag1 jid k + l.jv_grad k * l.jv_grad k)
  { l with
    self := { l.self with uv_ag_ := uag, iv_ag_ := iag2 }
    uv_grad := fun k => l.uv_grad k / (env.sqrt (uag uid k) + l.self.beta_)
    iv_grad := fun k => l.iv_grad k / (env.sqrt (iag2 iid k) + l.self.beta_)
    jv_grad := fun k => l.jv_grad k / (env.sqrt (iag2 jid k) + l.self.beta_) }

/-- Lines 84-97: `if (using_adagrad_) { if (using_bias_term_) {...} ... }`. -/
def adagrad_block [Add R] [Mul R] [Div R] (env : Collab R G) (uid iid jid : Nat)
    (l : Locals R) : Locals R :=
  if l.self.using_adagrad_ then
    adagrad_vectors env uid iid jid
      (if l.self.using_bias_term_ then adagrad_bias env iid jid l else l)
  else l

/-- Lines 99-105: the in-place decrements, statement by statement. -/
def apply_block [Sub R] [Mul R] (uid iid jid : Nat) (l : Locals R) : BPR R :=
  let m := l.self
  let ib1 :=
    if m.using_bias_term_ then
      let b1 := Function.update m.ib_ iid (m.ib_ iid - m.learn_rate_ * l.ib_grad)
      Function.update b1 jid (b1 jid - m.learn_rate_ * l.jb_grad)
    else m.ib_
  let uv1 := Function.update m.uv_ uid (fun k => m.uv_ uid k - m.learn_rate_ * l.uv_grad k)
  let iv1 := Function.update m.iv_ iid (fun k => m.iv_ iid k - m.learn_rate_ * l.iv_grad k)
  let iv2 := Function.update iv1 jid (fun k => iv1 jid k - m.learn_rate_ * l.jv_grad k)
  { m with ib_ := ib1, uv_ := uv1, iv_ := iv2 }

/-- Lines 72-106, `BPR::train_one_pair(uid, iid, jid, rui)`. -/
def train_one_pair [Add R] [Sub R] [Mul R] [Div R] [Neg R] [OfNat R 2] (env : Collab R G)
    (m : BPR R) (uid iid jid : Nat) (rui : R) : BPR R :=
  apply_block uid iid jid (adagrad_block env uid iid jid (raw_gradients env m uid iid jid rui))

end update

/-- One invocation of `train_one_pair`, as the epoch driver issues it (line 66). -/
structure Call (R : Type) where
  uid : Nat
  iid : Nat
  jid : Nat
  rui : R

/-- What a run of the epoch driver has reached: the object, the generator state of the
sampler, and the invocations of `train_one_pair` made so far, oldest first (the log is
instrumentation, nothing reads it). -/
structure Sweep (R G : Type) where
  self : BPR R
  rng : G
  calls : List (Call R)

/-- How `train_one_iteration` ends: it returns, or `CHECK` (line 60) aborts the process;
either way with what had been reached by then. -/
inductive Outcome (α : Type) where
  | finished (reached : α)
  | aborted (reached : α)

/-- What the run had reached when it ended. -/
def Outcome.reached {α : Type} : Outcome α → α
  | .finished x => x
  | .aborted x => x

/-- Whether the run was aborted by `CHECK`. -/
def Outcome.isAborted {α : Type} : Outcome α → Bool
  | .finished _ => false
  | .aborted _ => true

section epoch
variable {R G : Type} [Add R] [Sub R] [Mul R] [Div R] [Neg R] [OfNat R 2]

/-- Lines 64-67: the loop `for (idx = 0; idx < num_neg_; ++idx)`, with `n` the number of
iterations still to run: draw `jid` from the user's item map, then update with label 1.
The bound is read when the loop is entered; `train_one_pair` never writes `num_neg_`. -/
def neg_loop [One R] (env : Collab R G) (uid iid : Nat) (item_map : List Nat) :
    Nat → Sweep R G → Sweep R G
  | 0, st => st
  | n + 1, st =>
    let drawn := env.sample_negative_item item_map st.rng
    let jid := drawn.1
    neg_loop env uid iid item_map n
      { self := train_one_pair env st.self uid iid jid 1
        rng := drawn.2
        calls := st.calls ++ [{ uid := uid, iid := iid, jid := jid, rui := 1 }] }

/-- Lines 62-68: the loop `for (auto& p : item_map)` over the keys still to visit; the
sampler is always given the whole `item_map`. -/
def item_loop [One R] (env : Collab R G) (uid : Nat) (item_map : List Nat) :
    List Nat → Sweep R G → Sweep R G
  | [], st => st
  | iid :: rest, st =>
    item_loop env uid item_map rest (neg_loop env uid iid item_map st.self.num_neg_ st)

/-- Lines 58-69: the loop `for (uid = 0; uid < num_users_; ++uid)`, with `n` the number of
users still to visit; `CHECK(fit != end())` aborts at a user without an item map. The
bound is read when the loop is entered; `train_one_pair` never writes `num_users_`. -/
def user_loop [One R] (env : Collab R G) : Nat → Nat → Sweep R G → Outcome (Sweep R G)
  | 0, _, st => .finished st
  | n + 1, uid, st =>
    match st.self.user_rated_items_ uid with
    | none => .aborted st
    | some item_map => user_loop env n (uid + 1) (item_loop env uid item_map item_map st)

/-- Lines 57-70, `BPR::train_one_iteration` (its argument `train_data` is not used). -/
def train_one_iteration [One R] (env : Collab R G) (m : BPR R) (rng : G) :
    Outcome (Sweep R G) :=
  user_loop env m.num_users_ 0 { self := m, rng := rng, calls := [] }

/-- The object after a list of invocations of `train_one_pair`, in order. -/
def run_calls (env : Collab R G) (m : BPR R) (cs : List (Call R)) : BPR R :=
  cs.foldl (fun acc c => train_one_pair env acc c.uid c.iid c.jid c.rui) m

end epoch

section schedule
variable {R G : Type}

/-- The invocations the inner loop makes in `n` iterations from generator state `g`. -/
def neg_calls [One R] (env : Collab R G) (uid iid : Nat) (item_map : List Nat) :
    Nat → G → List (Call R)
  | 0, _ => []
  | n + 1, g =>
    { uid := uid, iid := iid, jid := (env.sample_negative_item item_map g).1, rui := 1 }
      :: neg_calls env uid iid item_map n (env.sample_negative_item item_map g).2

/-- The generator state after `n` draws on `item_map` from `g`. -/
def neg_rng (env : Collab R G) (item_map : List Nat) : Nat → G → G
  | 0, g => g
  | n + 1, g => neg_rng env item_map n (env.sample_negative_item item_map g).2

/-- The invocations the item loop makes over `items`, with `nneg` draws per item. -/
def item_calls [One R] (env : Collab R G) (uid : Nat) (item_map : List Nat) (nneg : Nat) :
    List Nat → G → List (Call R)
  | [], _ => []
  | iid :: rest, g =>
    neg_calls env uid iid item_map nneg g
      ++ item_calls env uid item_map nneg rest (neg_rng env item_map nneg g)

/-- The generator state after the item loop over `items`. -/
def item_rng (env : Collab R G) (item_map : List Nat) (nneg : Nat) : List Nat → G → G
  | [], g => g
  | _ :: rest, g => item_rng env item_map nneg rest (neg_rng env item_map nneg g)

/-- The invocations the user loop makes over `n` users from `uid` on, up to the first
user without an item map. -/
def user_calls [One R] (env : Collab R G) (rated : Nat → Option (List Nat)) (nneg : Nat) :
    Nat → Nat → G → List (Call R)
  | 0, _, _ => []
  | n + 1, uid, g =>
    match rated uid with
    | none => []
    | some item_map =>
      item_calls env uid item_map nneg item_map g
        ++ user_calls env rated nneg n (uid + 1) (item_rng env item_map nneg item_map g)

/-- The generator state when the user loop ends. -/
def user_rng (env : Collab R G) (rated : Nat → Option (List Nat)) (nneg : Nat) :
    Nat → Nat → G → G
  | 0, _, g => g
  | n + 1, uid, g =>
    match rated uid with
    | none => g
    | some item_map =>
      user_rng env rated nneg n (uid + 1) (item_rng env item_map nneg item_map g)

/-- Whether one of the `n` users from `uid` on has no item map. -/
def user_missing (rated : Nat → Option (List Nat)) : Nat → Nat → Bool
  | 0, _ => false
  | n + 1, uid =>
    match rated uid with
    | none => true
    | some _ => user_missing rated n (uid + 1)

/-- Replays a log against the sampler: from generator state `g`, every logged `jid` must be
the next draw on the item map of the logged user; returns the generator state after the
last draw, or `none` when the log does not arise in this way. -/
def replay_draws (env : Collab R G) (rated : Nat → Option (List Nat)) :
    G → List (Call R) → Option G
  | g, [] => some g
  | g, c :: cs =>
    match rated c.uid with
    | none => none
    | some item_map =>
      if c.jid = (env.sample_negative_item item_map g).1 then
        replay_draws env rated (env.sample_negative_item item_map g).2 cs
      else none

end schedule

section binary64

/-- IEEE-754 binary64 values: the not-a-number, the two infinities, and the finite values
`± m * 2 ^ e` in canonical form (`m` odd, or `m = 0` for the zero). The two zeros are
identified. The sign of a zero shows only in a division by it, and no divisor of
`train_one_pair` is a negative zero: an accumulator entry is a sum with a square, which is
never a negative zero, so neither are its root and `beta` plus its root. -/
inductive F64 where
  | nan
  | inf (neg : Bool)
  | fin (neg : Bool) (m : Nat) (e : Int)
  deriving DecidableEq

namespace F64

/-- The largest `acc + k`, over sums of the listed steps, with `2 ^ (acc + k) ≤ n`. -/
def log2_go (n : Nat) : List Nat → Nat → Nat
  | [], acc => acc
  | k :: ks, acc => if n >>> (acc + k) = 0 then log2_go n ks acc else log2_go n ks (acc + k)

/-- The number of binary digits of `n` (0 for 0), for `n < 2 ^ 8192`. -/
def bitlen (n : Nat) : Nat :=
  if n = 0 then 0
  else log2_go n [4096, 2048, 1024, 512, 256, 128, 64, 32, 16, 8, 4, 2, 1] 0 + 1

/-- The number of trailing zero binary digits of `n`, counted up to `fuel`. -/
def trailing : Nat → Nat → Nat
  | 0, _ => 0
  | fuel + 1, n => if n % 2 = 0 then trailing fuel (n / 2) + 1 else 0

/-- The zero. -/
def zero : F64 := fin false 0 0

/-- The value `± r * 2 ^ q` for `r ≤ 2 ^ 53` already on the grid: infinity when it is
`2 ^ 1024` or more, and otherwise the canonical form. -/
def pack (s : Bool) (r : Nat) (q : Int) : F64 :=
  if r = 0 then zero
  else if (bitlen r : Int) + q > 1024 then inf s
  else fin s (r >>> trailing 64 r) (q + trailing 64 r)

/-- Rounding to nearest, ties to even, of the exact value `± a * 2 ^ e`: the grid has 53
binary digits and its spacing is never below `2 ^ (-1074)` (gradual underflow). -/
def round (s : Bool) (a : Nat) (e : Int) : F64 :=
  let q : Int := max ((bitlen a : Int) + e - 53) (-1074)
  if q ≤ e then pack s a e
  else
    let sh := (q - e).toNat
    let hi := a >>> sh
    let lo := a % (1 <<< sh)
    let half := 1 <<< (sh - 1)
    let up := decide (half < lo) || (decide (lo = half) && decide (hi % 2 = 1))
    pack s (if up then hi + 1 else hi) q

/-- The integer `± a`. -/
def sint (s : Bool) (a : Nat) : Int := if s then - (a : Int) else (a : Int)

/-- Addition: exact sum of the two values, then rounded. -/
def add : F64 → F64 → F64
  | nan, _ => nan
  | _, nan => nan
  | inf s, inf t => if s = t then inf s else nan
  | inf s, fin _ _ _ => inf s
  | fin _ _ _, inf t => inf t
  | fin s a e, fin t b f =>
    let emin := min e f
    let z := sint s (a <<< (e - emin).toNat) + sint t (b <<< (f - emin).toNat)
    round (decide (z < 0)) z.natAbs emin

/-- Negation. -/
def neg : F64 → F64
  | nan => nan
  | inf s => inf (!s)
  | fin s a e => if a = 0 then zero else fin (!s) a e

/-- Subtraction. -/
def sub (x y : F64) : F64 := add x (neg y)

/-- Multiplication: exact product, then rounded; `0 * inf` is not a number. -/
def mul : F64 → F64 → F64
  | nan, _ => nan
  | _, nan => nan
  | inf s, inf t => inf (xor s t)
  | inf s, fin t b _ => if b = 0 then nan else inf (xor s t)
  | fin s a _, inf t => if a = 0 then nan else inf (xor s t)
  | fin s a e, fin t b f => round (xor s t) (a * b) (e + f)

/-- Division: the quotient to more than 64 binary digits with a sticky digit for the
remainder, then rounded; `0 / 0` and `inf / inf` are not a number, `x / 0` is an infinity. -/
def div : F64 → F64 → F64
  | nan, _ => nan
  | _, nan => nan
  | inf _, inf _ => nan
  | inf s, fin t _ _ => inf (xor s t)
  | fin _ _ _, inf _ => zero
  | fin s a e, fin t b f =>
    if b = 0 then (if a = 0 then nan else inf (xor s t))
    else
      let k := bitlen b + 64
      let n := a <<< k
      round (xor s t) (2 * (n / b) + (if n % b = 0 then 0 else 1)) (e - f - k - 1)

/-- The integer square root of `n < 2 ^ (2 * i)`, digit by digit from digit `i - 1` down. -/
def isqrt_go (n : Nat) : Nat → Nat → Nat
  | 0, r => r
  | i + 1, r =>
    isqrt_go n i (if (r + (1 <<< i)) * (r + (1 <<< i)) ≤ n then r + (1 <<< i) else r)

/-- Square root: the root to more than 64 binary digits with a sticky digit, then rounded;
the root of a negative number is not a number. -/
def sqrt : F64 → F64
  | nan => nan
  | inf s => if s then nan else inf false
  | fin s a e =>
    if a = 0 then zero
    else if s then nan
    else
      let k : Nat := 128 + (e % 2).toNat
      let n := a <<< k
      let r := isqrt_go n 96 0
      round false (2 * r + (if r * r = n then 0 else 1)) ((e - k) / 2 - 1)

/-- The comparison `x < y`, false when either side is not a number. -/
def lt : F64 → F64 → Bool
  | nan, _ => false
  | _, nan => false
  | inf s, inf t => s && !t
  | inf s, fin _ _ _ => s
  | fin _ _ _, inf t => !t
  | fin s a e, fin t b f =>
    decide (sint s (a <<< (e - min e f).toNat) < sint t (b <<< (f - min e f).toNat))

/-- The comparison `x ≤ y`, false when either side is not a number. -/
def le : F64 → F64 → Bool
  | nan, _ => false
  | _, nan => false
  | inf s, inf t => s || !t
  | inf s, fin _ _ _ => s
  | fin _ _ _, inf t => !t
  | fin s a e, fin t b f =>
    decide (sint s (a <<< (e - min e f).toNat) ≤ sint t (b <<< (f - min e f).toNat))

/-- The double nearest to the integer `m` times `2 ^ e`. -/
def ofScaled (m : Int) (e : Int) : F64 := round (decide (m < 0)) m.natAbs e

end F64

instance : Add F64 := ⟨F64.add⟩
instance : Sub F64 := ⟨F64.sub⟩
instance : Mul F64 := ⟨F64.mul⟩
instance : Div F64 := ⟨F64.div⟩
instance : Neg F64 := ⟨F64.neg⟩
instance : Zero F64 := ⟨F64.zero⟩
instance : One F64 := ⟨F64.fin false 1 0⟩
instance : OfNat F64 2 := ⟨F64.fin false 1 1⟩
instance : LT F64 := ⟨fun x y => F64.lt x y = true⟩
instance : LE F64 := ⟨fun x y => F64.le x y = true⟩
instance (x y : F64) : Decidable (x < y) := inferInstanceAs (Decidable (F64.lt x y = true))
instance (x y : F64) : Decidable (x ≤ y) := inferInstanceAs (Decidable (F64.le x y = true))

end binary64

section examples

/-- The inner product of the first `n` coordinates. -/
def dot {R : Type} [Field R] (n : Nat) (a b : Nat → R) : R :=
  Finset.sum (Finset.range n) fun k => a k * b k

/-- Modelled from the spec: the score of the base factorisation model, which `bpr.hpp`
only calls (`predict_user_item_rating`, declared in `model/recsys/imf.hpp`): the inner
product of the user's and the item's latent rows, plus the item's bias when the bias term
is enabled (the bias is used only then). -/
def predict_dot_bias {R : Type} [Field R] (m : BPR R) (uid iid : Nat) : R :=
  if m.using_bias_term_ then dot m.num_dim_ (m.uv_ uid) (m.iv_ iid) + m.ib_ iid
  else dot m.num_dim_ (m.uv_ uid) (m.iv_ iid)

/-- The margin `predict(u, i) - predict(u, j)` under the score above. -/
def margin {R : Type} [Field R] (m : BPR R) (uid iid jid : Nat) : R :=
  predict_dot_bias m uid iid - predict_dot_bias m uid jid

/-- Modelled from the spec: the logistic function, over an exponential `exp`. -/
def sigmoid {R : Type} [Field R] (exp : R → R) (x : R) : R := 1 / (1 + exp (- x))

/-- Modelled from the spec: the logistic loss gradient `label * (1 - sigmoid(label * m))`
(`Loss::gradient` is declared in `model/loss.hpp`). -/
def logistic_gradient {R : Type} [Field R] (exp : R → R) (pred truth : R) : R :=
  truth * (1 - sigmoid exp (truth * pred))

/-- Modelled from the spec: the logistic loss `log (1 + exp (- m))` of a margin. -/
def logistic_loss {R : Type} [Field R] (exp log : R → R) (x : R) : R := log (1 + exp (- x))

/-- The environment the specification describes: dot-product score and logistic loss. -/
def spec_env {R G : Type} [Field R] (exp sqrt : R → R)
    (sample_negative_item : List Nat → G → Nat × G) : Collab R G where
  predict_user_item_rating := predict_dot_bias
  gradient := logistic_gradient exp
  sqrt := sqrt
  sample_negative_item := sample_negative_item

/-- An object with `lambda = 0`, no adaptive scaling, the bias term, one latent dimension,
every latent coordinate 1 and every bias 0: all margins are 0. -/
def even_model {R : Type} [Field R] : BPR R where
  learn_rate_ := 1 / 10
  beta_ := 1
  lambda_ := 0
  num_dim_ := 1
  num_neg_ := 1
  using_bias_term_ := true
  using_adagrad_ := false
  num_users_ := 1
  num_items_ := 2
  user_rated_items_ := fun uid => if uid = 0 then some [0] else none
  uv_ := fun _ _ => 1
  iv_ := fun _ _ => 1
  ib_ := fun _ => 0
  uv_ag_ := fun _ _ => 0
  iv_ag_ := fun _ _ => 0
  ib_ag_ := fun _ => 0

/-- The all-ones object with adaptive scaling switched on. -/
def adaptive_model {R : Type} [Field R] : BPR R :=
  { (even_model : BPR R) with using_adagrad_ := true }

/-- A square root on the rationals, exact on squares of rationals. -/
def qsqrt (x : ℚ) : ℚ := (Nat.sqrt (x.num.toNat * x.den) : ℚ) / (x.den : ℚ)

/-- A sampler over the item universe `[0, 3)`: the first id at or after `g % 3`, cyclically,
that is not in the item map. -/
def toy_sample (item_map : List Nat) (g : Nat) : Nat × Nat :=
  if g % 3 ∉ item_map then (g % 3, g + 1)
  else if (g + 1) % 3 ∉ item_map then ((g + 1) % 3, g + 2)
  else ((g + 2) % 3, g + 3)

/-- An environment over the rationals: dot-product score, the derivative of the hinge loss
`max 0 (1 - truth * pred)` in `pred`, and the sampler above. -/
def toy_env : Collab ℚ Nat where
  predict_user_item_rating := predict_dot_bias
  gradient := fun pred truth => if truth * pred < 1 then - truth else 0
  sqrt := qsqrt
  sample_negative_item := toy_sample

/-- The scenario of the specification: one user, three items, user 0 rated item 0 only,
two negatives per positive; one latent dimension. -/
def toy_model : BPR ℚ where
  learn_rate_ := 1 / 10
  beta_ := 1
  lambda_ := 1 / 100
  num_dim_ := 1
  num_neg_ := 2
  using_bias_term_ := true
  using_adagrad_ := true
  num_users_ := 1
  num_items_ := 3
  user_rated_items_ := fun uid => if uid = 0 then some [0] else none
  uv_ := fun _ _ => 1 / 2
  iv_ := fun iid _ => (iid : ℚ) / 4
  ib_ := fun _ => 0
  uv_ag_ := fun _ _ => 0
  iv_ag_ := fun _ _ => 0
  ib_ag_ := fun _ => 0

/-- The scenario with adaptive scaling switched off. -/
def plain_model : BPR ℚ := { toy_model with using_adagrad_ := false }

/-- A model with `lambda = 0`, no adaptive scaling and the large learning rate 10, whose
margin for `(0, 0, 1)` is `1 * (-1 - 1) + 2 - 0 = 0`. -/
def steep_model : BPR ℚ :=
  { (even_model : BPR ℚ) with
    learn_rate_ := 10
    iv_ := fun iid _ => if iid = 0 then -1 else 1
    ib_ := fun iid => if iid = 0 then 2 else 0 }

/-- Two users and one negative per positive over the scenario's parameters, with
`lambda = 0` and no adaptive scaling: user 0 rated item 1 only, user 1 rated item 0 only. -/
def swap_model : BPR ℚ :=
  { toy_model with
    lambda_ := 0
    using_adagrad_ := false
    num_users_ := 2
    num_neg_ := 1
    user_rated_items_ := fun uid =>
      if uid = 0 then some [1] else if uid = 1 then some [0] else none }

/-- Modelled from the spec: the score of the base factorisation model for one latent
dimension, in the arithmetic of the code: the product of the user's and the item's latent
coordinate, plus the item's bias when the bias term is enabled. -/
def f64_predict (m : BPR F64) (uid iid : Nat) : F64 :=
  if m.using_bias_term_ then m.uv_ uid 0 * m.iv_ iid 0 + m.ib_ iid
  else m.uv_ uid 0 * m.iv_ iid 0

/-- An environment over binary64: the score above, the derivative of the hinge loss, the
correctly rounded square root, and the sampler of the scenario. -/
def f64_env : Collab F64 Nat where
  predict_user_item_rating := f64_predict
  gradient := fun pred truth => if truth * pred < 1 then - truth else 0
  sqrt := F64.sqrt
  sample_negative_item := toy_sample

/-- A binary64 object with `learn_rate = 1`, `beta = 1`, `lambda = 0`, one latent
dimension, the bias term, no adaptive scaling, two items, and every parameter and
accumulator 0. -/
def f64_model : BPR F64 where
  learn_rate_ := 1
  beta_ := 1
  lambda_ := 0
  num_dim_ := 1
  num_neg_ := 1
  using_bias_term_ := true
  using_adagrad_ := false
  num_users_ := 1
  num_items_ := 2
  user_rated_items_ := fun uid => if uid = 0 then some [0] else none
  uv_ := fun _ _ => 0
  iv_ := fun _ _ => 0
  ib_ := fun _ => 0
  uv_ag_ := fun _ _ => 0
  iv_ag_ := fun _ _ => 0
  ib_ag_ := fun _ => 0

/-- Binary64 object for the absorbed increment: user coordinate 1, item 0 with latent
coordinate 0 and bias `2 ^ 53`, item 1 with latent coordinate `2 ^ 53` and bias 0, so that
both scores are `2 ^ 53` and the margin of `(0, 0, 1)` is 0. -/
def heavy_model : BPR F64 :=
  { f64_model with
    uv_ := fun _ _ => 1
    iv_ := fun iid _ => if iid = 0 then 0 else F64.fin false 1 53
    ib_ := fun iid => if iid = 0 then F64.fin false 1 53 else 0 }

/-- Binary64 object for the degenerate call: user coordinate `2 ^ 60`, every item latent
coordinate `1/4`. -/
def lopsided_model : BPR F64 :=
  { f64_model with
    uv_ := fun _ _ => F64.fin false 1 60
    iv_ := fun _ _ => F64.fin false 1 (-2) }

/-- Binary64 object for the underflowing square: adaptive scaling with `beta = 0`, user
coordinate 1, item 0 with latent coordinate 0 and item 1 with `9 * 2 ^ (-540)`. -/
def tiny_model : BPR F64 :=
  { f64_model with
    using_adagrad_ := true
    beta_ := 0
    uv_ := fun _ _ => 1
    iv_ := fun iid _ => if iid = 0 then 0 else F64.fin false 9 (-540) }

/-- Binary64 object for the zero divisor: adaptive scaling with `beta = 0`,
`lambda = 1/2`, `learn_rate` the double nearest to `1/10`, user coordinate `1/2`, item 0
with latent coordinate 0 and item 1 with `1/4`, every bias 1, every accumulator 0. -/
def zero_divisor_model : BPR F64 :=
  { f64_model with
    using_adagrad_ := true
    learn_rate_ := F64.fin false 3602879701896397 (-55)
    beta_ := 0
    lambda_ := F64.fin false 1 (-1)
    uv_ := fun _ _ => F64.fin false 1 (-1)
    iv_ := fun iid _ => if iid = 0 then 0 else F64.fin false 1 (-2)
    ib_ := fun _ => 1 }

/-- Binary64 object for the zero divisor without the bias term: adaptive scaling with
`beta = 0`, `lambda = 0`, user coordinate 1 and every item latent coordinate 1, every
accumulator 0. -/
def flat_model : BPR F64 :=
  { f64_model with
    using_bias_term_ := false
    using_adagrad_ := true
    beta_ := 0
    uv_ := fun _ _ => 1
    iv_ := fun _ _ => 1 }

/-- Binary64 object for the step rounded away: no bias term, user coordinate `2 ^ (-60)`,
every item latent coordinate 1. -/
def faint_model : BPR F64 :=
  { f64_model with
    using_bias_term_ := false
    uv_ := fun _ _ => F64.fin false 1 (-60)
    iv_ := fun _ _ => 1 }

end examples

section block_lemmas
variable {R G : Type}

/-- The adaptive block leaves the configuration, the sizes, the interaction map and the
parameters themselves alone. -/
theorem adagrad_block_rest [Add R] [Mul R] [Div R] (env : Collab R G) (uid iid jid : Nat)
    (l : Locals R) :
    (adagrad_block env uid iid jid l).self.learn_rate_ = l.self.learn_rate_
    ∧ (adagrad_block env uid iid jid l).self.beta_ = l.self.beta_
    ∧ (adagrad_block env uid iid jid l).self.lambda_ = l.self.lambda_
    ∧ (adagrad_block env uid iid jid l).self.num_dim_ = l.self.num_dim_
    ∧ (adagrad_block env uid iid jid l).self.num_neg_ = l.self.num_neg_
    ∧ (adagrad_block env uid iid jid l).self.using_bias_term_ = l.self.using_bias_term_
    ∧ (adagrad_block env uid iid jid l).self.using_adagrad_ = l.self.using_adagrad_
    ∧ (adagrad_block env uid iid jid l).self.num_users_ = l.self.num_users_
    ∧ (adagrad_block env uid iid jid l).self.num_items_ = l.self.num_items_
    ∧ (adagrad_block env uid iid jid l).self.user_rated_items_ = l.self.user_rated_items_
    ∧ (adagrad_block env uid iid jid l).self.uv_ = l.self.uv_
    ∧ (adagrad_block env uid iid jid l).self.iv_ = l.self.iv_
    ∧ (adagrad_block env uid iid jid l).self.ib_ = l.self.ib_ := by
  unfold adagrad_block
  split_ifs <;> simp [adagrad_vectors, adagrad_bias]

theorem apply_block_accumulators [Sub R] [Mul R] (uid iid jid : Nat) (l : Locals R) :
    (apply_block uid iid jid l).uv_ag_ = l.self.uv_ag_
    ∧ (apply_block uid iid jid l).iv_ag_ = l.self.iv_ag_
    ∧ (apply_block uid iid jid l).ib_ag_ = l.self.ib_ag_ :=
  ⟨rfl, rfl, rfl⟩

theorem update_other {α : Type} (f : Nat → α) (i x : Nat) (v : α) (h : x ≠ i) :
    Function.update f i v x = f x :=
  Function.update_noteq h v f

/-- An item other than `iid` and `jid` and a user other than `uid` keep all their entries
through the adaptive block. -/
theorem adagrad_block_other [Add R] [Mul R] [Div R] (env : Collab R G) (uid iid jid : Nat)
    (l : Locals R) :
    (∀ u, u ≠ uid → (adagrad_block env uid iid jid l).self.uv_ag_ u = l.self.uv_ag_ u)
    ∧ (∀ x, x ≠ iid → x ≠ jid →
        (adagrad_block env uid iid jid l).self.iv_ag_ x = l.self.iv_ag_ x)
    ∧ (∀ x, x ≠ iid → x ≠ jid →
        (adagrad_block env uid iid jid l).self.ib_ag_ x = l.self.ib_ag_ x) := by
  unfold adagrad_block
  refine ⟨fun u hu => ?_, fun x hi hj => ?_, fun x hi hj => ?_⟩ <;>
    split_ifs <;> simp [adagrad_vectors, adagrad_bias, update_other, *]

/-- An item other than `iid` and `jid` and a user other than `uid` keep all their
parameters through the decrements. -/
theorem apply_block_other [Sub R] [Mul R] (uid iid jid : Nat) (l : Locals R) :
    (∀ u, u ≠ uid → (apply_block uid iid jid l).uv_ u = l.self.uv_ u)
    ∧ (∀ x, x ≠ iid → x ≠ jid → (apply_block uid iid jid l).iv_ x = l.self.iv_ x)
    ∧ (∀ x, x ≠ iid → x ≠ jid → (apply_block uid iid jid l).ib_ x = l.self.ib_ x) := by
  unfold apply_block
  refine ⟨fun u hu => ?_, fun x hi hj => ?_, fun x hi hj => ?_⟩
  · simp [update_other, *]
  · simp [update_other, *]
  · simp only []
    split_ifs <;> simp [update_other, *]

end block_lemmas

section frame_lemmas
variable {R G : Type} [Add R] [Sub R] [Mul R] [Div R] [Neg R] [OfNat R 2]

@[simp] theorem train_one_pair_learn_rate (env : Collab R G) (m : BPR R) (uid iid jid : Nat)
    (rui : R) : (train_one_pair env m uid iid jid rui).learn_rate_ = m.learn_rate_ :=
  (adagrad_block_rest env uid iid jid (raw_gradients env m uid iid jid rui)).1

@[simp] theorem train_one_pair_beta (env : Collab R G) (m : BPR R) (uid iid jid : Nat)
    (rui : R) : (train_one_pair env m uid iid jid rui).beta_ = m.beta_ :=
  (adagrad_block_rest env uid iid jid (raw_gradients env m uid iid jid rui)).2.1

@[simp] theorem train_one_pair_lambda (env : Collab R G) (m : BPR R) (uid iid jid : Nat)
    (rui : R) : (train_one_pair env m uid iid jid rui).lambda_ = m.lambda_ :=
  (adagrad_block_rest env uid iid jid (raw_gradients env m uid iid jid rui)).2.2.1

@[simp] theorem train_one_pair_num_dim (env : Collab R G) (m : BPR R) (uid iid jid : Nat)
    (rui : R) : (train_one_pair env m uid iid jid rui).num_dim_ = m.num_dim_ :=
  (adagrad_block_rest env uid iid jid (raw_gradients env m uid iid jid rui)).2.2.2.1

@[simp] theorem train_one_pair_num_neg (env : Collab R G) (m : BPR R) (uid iid jid : Nat)
    (rui : R) : (train_one_pair env m uid iid jid rui).num_neg_ = m.num_neg_ :=
  (adagrad_block_rest env uid iid jid (raw_gradients env m uid iid jid rui)).2.2.2.2.1

@[simp] theorem train_one_pair_using_bias_term (env : Collab R G) (m : BPR R)
    (uid iid jid : Nat) (rui : R) :
    (train_one_pair env m uid iid jid rui).using_bias_term_ = m.using_bias_term_ :=
  (adagrad_block_rest env uid iid jid (raw_gradients env m uid iid jid rui)).2.2.2.2.2.1

@[simp] theorem train_one_pair_using_adagrad (env : Collab R G) (m : BPR R)
    (uid iid jid : Nat) (rui : R) :
    (train_one_pair env m uid iid jid rui).using_adagrad_ = m.using_adagrad_ :=
  (adagrad_block_rest env uid iid jid (raw_gradients env m uid iid jid rui)).2.2.2.2.2.2.1

@[simp] theorem train_one_pair_num_users (env : Collab R G) (m : BPR R) (uid iid jid : Nat)
    (rui : R) : (train_one_pair env m uid iid jid rui).num_users_ = m.num_users_ :=
  (adagrad_block_rest env uid iid jid (raw_gradients env m uid iid jid rui)).2.2.2.2.2.2.2.1

@[simp] theorem train_one_pair_num_items (env : Collab R G) (m : BPR R) (uid iid jid : Nat)
    (rui : R) : (train_one_pair env m uid iid jid rui).num_items_ = m.num_items_ :=
  (adagrad_block_rest env uid iid jid (raw_gradients env m uid iid jid rui)).2.2.2.2.2.2.2.2.1

@[simp] theorem train_one_pair_user_rated_items (env : Collab R G) (m : BPR R)
    (uid iid jid : Nat) (rui : R) :
    (train_one_pair env m uid iid jid rui).user_rated_items_ = m.user_rated_items_ :=
  (adagrad_block_rest env uid iid jid (raw_gradients env m uid iid jid rui)).2.2.2.2.2.2.2.2.2.1

@[simp] theorem run_calls_nil (env : Collab R G) (m : BPR R) : run_calls env m [] = m := rfl

@[simp] theorem run_calls_cons (env : Collab R G) (m : BPR R) (c : Call R)
    (cs : List (Call R)) :
    run_calls env m (c :: cs) = run_calls env (train_one_pair env m c.uid c.iid c.jid c.rui) cs :=
  rfl

theorem run_calls_append (env : Collab R G) (m : BPR R) (cs ds : List (Call R)) :
    run_calls env m (cs ++ ds) = run_calls env (run_calls env m cs) ds := by
  simp [run_calls, List.foldl_append]

@[simp] theorem run_calls_num_neg (env : Collab R G) (m : BPR R) (cs : List (Call R)) :
    (run_calls env m cs).num_neg_ = m.num_neg_ := by
  induction cs generalizing m with
  | nil => rfl
  | cons c cs ih => simp [ih]

@[simp] theorem run_calls_num_users (env : Collab R G) (m : BPR R) (cs : List (Call R)) :
    (run_calls env m cs).num_users_ = m.num_users_ := by
  induction cs generalizing m with
  | nil => rfl
  | cons c cs ih => simp [ih]

@[simp] theorem run_calls_user_rated_items (env : Collab R G) (m : BPR R)
    (cs : List (Call R)) :
    (run_calls env m cs).user_rated_items_ = m.user_rated_items_ := by
  induction cs generalizing m with
  | nil => rfl
  | cons c cs ih => simp [ih]

/-- Rows and entries that `train_one_pair uid iid jid` does not own are left as they were. -/
theorem train_one_pair_other (env : Collab R G) (m : BPR R) (uid iid jid : Nat) (rui : R) :
    (∀ u, u ≠ uid → (train_one_pair env m uid iid jid rui).uv_ u = m.uv_ u
        ∧ (train_one_pair env m uid iid jid rui).uv_ag_ u = m.uv_ag_ u)
    ∧ (∀ x, x ≠ iid → x ≠ jid →
        (train_one_pair env m uid iid jid rui).iv_ x = m.iv_ x
        ∧ (train_one_pair env m uid iid jid rui).ib_ x = m.ib_ x
        ∧ (train_one_pair env m uid iid jid rui).iv_ag_ x = m.iv_ag_ x
        ∧ (train_one_pair env m uid iid jid rui).ib_ag_ x = m.ib_ag_ x) := by
  have hr := adagrad_block_rest env uid iid jid (raw_gradients env m uid iid jid rui)
  have ha := adagrad_block_other env uid iid jid (raw_gradients env m uid iid jid rui)
  have hp := apply_block_other uid iid jid
    (adagrad_block env uid iid jid (raw_gradients env m uid iid jid rui))
  have hg := apply_block_accumulators uid iid jid
    (adagrad_block env uid iid jid (raw_gradients env m uid iid jid rui))
  have e1 : (raw_gradients env m uid iid jid rui).self = m := rfl
  rw [e1] at hr ha
  unfold train_one_pair
  refine ⟨fun u hu => ⟨?_, ?_⟩, fun x hi hj => ⟨?_, ?_, ?_, ?_⟩⟩
  · rw [hp.1 u hu, hr.2.2.2.2.2.2.2.2.2.2.1]
  · rw [hg.1, ha.1 u hu]
  · rw [hp.2.1 x hi hj, hr.2.2.2.2.2.2.2.2.2.2.2.1]
  · rw [hp.2.2 x hi hj, hr.2.2.2.2.2.2.2.2.2.2.2.2]
  · rw [hg.2.1, ha.2.1 x hi hj]
  · rw [hg.2.2, ha.2.2 x hi hj]

@[simp] theorem run_calls_learn_rate (env : Collab R G) (m : BPR R) (cs : List (Call R)) :
    (run_calls env m cs).learn_rate_ = m.learn_rate_ := by
  induction cs generalizing m with
  | nil => rfl
  | cons c cs ih => simp [ih]

@[simp] theorem run_calls_beta (env : Collab R G) (m : BPR R) (cs : List (Call R)) :
    (run_calls env m cs).beta_ = m.beta_ := by
  induction cs generalizing m with
  | nil => rfl
  | cons c cs ih => simp [ih]

@[simp] theorem run_calls_using_adagrad (env : Collab R G) (m : BPR R) (cs : List (Call R)) :
    (run_calls env m cs).using_adagrad_ = m.using_adagrad_ := by
  induction cs generalizing m with
  | nil => rfl
  | cons c cs ih => simp [ih]

@[simp] theorem run_calls_using_bias_term (env : Collab R G) (m : BPR R)
    (cs : List (Call R)) :
    (run_calls env m cs).using_bias_term_ = m.using_bias_term_ := by
  induction cs generalizing m with
  | nil => rfl
  | cons c cs ih => simp [ih]

@[simp] theorem run_calls_lambda (env : Collab R G) (m : BPR R) (cs : List (Call R)) :
    (run_calls env m cs).lambda_ = m.lambda_ := by
  induction cs generalizing m with
  | nil => rfl
  | cons c cs ih => simp [ih]

@[simp] theorem run_calls_num_items (env : Collab R G) (m : BPR R) (cs : List (Call R)) :
    (run_calls env m cs).num_items_ = m.num_items_ := by
  induction cs generalizing m with
  | nil => rfl
  | cons c cs ih => simp [ih]

end frame_lemmas

section replay_lemmas
variable {R G : Type}

theorem user_missing_iff (rated : Nat → Option (List Nat)) (n uid : Nat) :
    user_missing rated n uid = true ↔ ∃ k, k < n ∧ rated (uid + k) = none := by
  induction n generalizing uid with
  | zero => simp [user_missing]
  | succ n ih =>
    unfold user_missing
    cases hr : rated uid with
    | none => simpa using ⟨0, Nat.succ_pos n, by simpa using hr⟩
    | some item_map =>
      simp only [ih]
      constructor
      · rintro ⟨k, hk, hk'⟩
        exact ⟨k + 1, Nat.succ_lt_succ hk, by rwa [show uid + (k + 1) = uid + 1 + k by omega]⟩
      · rintro ⟨k, hk, hk'⟩
        cases k with
        | zero => simp [hr] at hk'
        | succ k =>
          exact ⟨k, Nat.lt_of_succ_lt_succ hk,
            by rwa [show uid + (k + 1) = uid + 1 + k by omega] at hk'⟩

theorem replay_draws_append (env : Collab R G) (rated : Nat → Option (List Nat)) (g : G)
    (cs ds : List (Call R)) :
    replay_draws env rated g (cs ++ ds)
      = (replay_draws env rated g cs).bind (fun g' => replay_draws env rated g' ds) := by
  induction cs generalizing g with
  | nil => rfl
  | cons c cs ih =>
    simp only [List.cons_append, replay_draws]
    cases rated c.uid with
    | none => rfl
    | some item_map =>
      by_cases hj : c.jid = (env.sample_negative_item item_map g).1
      · simp [hj, ih]
      · simp [hj]

end replay_lemmas

section trace_lemmas
variable {R G : Type} [One R]

theorem neg_calls_map (env : Collab R G) (uid iid : Nat) (item_map : List Nat) (n : Nat)
    (g : G) :
    (neg_calls env uid iid item_map n g).map (fun c => (c.uid, c.iid, c.rui))
      = List.replicate n (uid, iid, (1 : R)) := by
  induction n generalizing g with
  | zero => rfl
  | succ n ih => simp [neg_calls, List.replicate_succ, ih]

theorem item_calls_map (env : Collab R G) (uid : Nat) (item_map : List Nat) (nneg : Nat)
    (items : List Nat) (g : G) :
    (item_calls env uid item_map nneg items g).map (fun c => (c.uid, c.iid, c.rui))
      = items.flatMap (fun iid => List.replicate nneg (uid, iid, (1 : R))) := by
  induction items generalizing g with
  | nil => rfl
  | cons iid rest ih => simp [item_calls, neg_calls_map, ih]

theorem user_calls_map (env : Collab R G) (rated : Nat → Option (List Nat)) (nneg : Nat)
    (n uid : Nat) (g : G) (h : ∀ k, k < n → rated (uid + k) ≠ none) :
    (user_calls env rated nneg n uid g).map (fun c => (c.uid, c.iid, c.rui))
      = (List.range' uid n).flatMap (fun u =>
          ((rated u).getD []).flatMap (fun iid => List.replicate nneg (u, iid, (1 : R)))) := by
  induction n generalizing uid g with
  | zero => rfl
  | succ n ih =>
    unfold user_calls
    cases hr : rated uid with
    | none => exact absurd hr (by simpa using h 0 (Nat.succ_pos n))
    | some item_map =>
      have h' : ∀ k, k < n → rated (uid + 1 + k) ≠ none := fun k hk => by
        have := h (k + 1) (Nat.succ_lt_succ hk)
        rwa [show uid + (k + 1) = uid + 1 + k by omega] at this
      simp [List.range'_succ, item_calls_map, ih _ _ h', hr]

theorem neg_calls_length (env : Collab R G) (uid iid : Nat) (item_map : List Nat) (n : Nat)
    (g : G) : (neg_calls env uid iid item_map n g).length = n := by
  induction n generalizing g with
  | zero => rfl
  | succ n ih => simp [neg_calls, ih]

theorem item_calls_length (env : Collab R G) (uid : Nat) (item_map : List Nat) (nneg : Nat)
    (items : List Nat) (g : G) :
    (item_calls env uid item_map nneg items g).length = nneg * items.length := by
  induction items generalizing g with
  | nil => rfl
  | cons iid rest ih => simp [item_calls, neg_calls_length, ih, Nat.mul_succ, Nat.add_comm]

theorem user_calls_length (env : Collab R G) (rated : Nat → Option (List Nat)) (nneg : Nat)
    (n uid : Nat) (g : G) (h : ∀ k, k < n → rated (uid + k) ≠ none) :
    (user_calls env rated nneg n uid g).length
      = nneg * Finset.sum (Finset.range n) (fun k => ((rated (uid + k)).getD []).length) := by
  induction n generalizing uid g with
  | zero => rfl
  | succ n ih =>
    unfold user_calls
    cases hr : rated uid with
    | none => exact absurd hr (by simpa using h 0 (Nat.succ_pos n))
    | some item_map =>
      have h' : ∀ k, k < n → rated (uid + 1 + k) ≠ none := fun k hk => by
        have := h (k + 1) (Nat.succ_lt_succ hk)
        rwa [show uid + (k + 1) = uid + 1 + k by omega] at this
      have e : (fun k => ((rated (uid + 1 + k)).getD []).length)
          = fun k => ((rated (uid + (k + 1))).getD []).length :=
        funext fun k => by rw [show uid + 1 + k = uid + (k + 1) by omega]
      rw [List.length_append, item_calls_length, ih _ _ h', e, Finset.sum_range_succ',
        Nat.add_zero, hr, Option.getD_some]
      ring

theorem replay_neg_calls (env : Collab R G) (rated : Nat → Option (List Nat))
    (uid iid : Nat) (item_map : List Nat) (hr : rated uid = some item_map) (n : Nat) (g : G) :
    replay_draws env rated g (neg_calls env uid iid item_map n g)
      = some (neg_rng env item_map n g) := by
  induction n generalizing g with
  | zero => rfl
  | succ n ih => simp [neg_calls, neg_rng, replay_draws, hr, ih]

theorem replay_item_calls (env : Collab R G) (rated : Nat → Option (List Nat))
    (uid : Nat) (item_map : List Nat) (hr : rated uid = some item_map) (nneg : Nat)
    (items : List Nat) (g : G) :
    replay_draws env rated g (item_calls env uid item_map nneg items g)
      = some (item_rng env item_map nneg items g) := by
  induction items generalizing g with
  | nil => rfl
  | cons iid rest ih =>
    simp [item_calls, item_rng, replay_draws_append, replay_neg_calls env rated uid iid
      item_map hr, ih]

theorem replay_user_calls (env : Collab R G) (rated : Nat → Option (List Nat)) (nneg : Nat)
    (n uid : Nat) (g : G) :
    replay_draws env rated g (user_calls env rated nneg n uid g)
      = some (user_rng env rated nneg n uid g) := by
  induction n generalizing uid g with
  | zero => rfl
  | succ n ih =>
    unfold user_calls user_rng
    cases hr : rated uid with
    | none => rfl
    | some item_map =>
      simp [replay_draws_append, replay_item_calls env rated uid item_map hr, ih]

theorem mem_neg_calls (env : Collab R G) (uid iid : Nat) (item_map : List Nat) (n : Nat)
    (g : G) (c : Call R) (hc : c ∈ neg_calls env uid iid item_map n g) :
    c.uid = uid ∧ c.iid = iid ∧ c.rui = 1
      ∧ ∃ g', c.jid = (env.sample_negative_item item_map g').1 := by
  induction n generalizing g with
  | zero => simp [neg_calls] at hc
  | succ n ih =>
    simp only [neg_calls, List.mem_cons] at hc
    rcases hc with rfl | hc
    · exact ⟨rfl, rfl, rfl, g, rfl⟩
    · exact ih _ hc

theorem mem_item_calls (env : Collab R G) (uid : Nat) (item_map : List Nat) (nneg : Nat)
    (items : List Nat) (g : G) (c : Call R)
    (hc : c ∈ item_calls env uid item_map nneg items g) :
    c.uid = uid ∧ c.iid ∈ items ∧ c.rui = 1
      ∧ ∃ g', c.jid = (env.sample_negative_item item_map g').1 := by
  induction items generalizing g with
  | nil => simp [item_calls] at hc
  | cons iid rest ih =>
    simp only [item_calls, List.mem_append] at hc
    rcases hc with hc | hc
    · obtain ⟨h1, h2, h3, h4⟩ := mem_neg_calls env uid iid item_map nneg g c hc
      exact ⟨h1, by simp [h2], h3, h4⟩
    · obtain ⟨h1, h2, h3, h4⟩ := ih _ hc
      exact ⟨h1, List.mem_cons_of_mem _ h2, h3, h4⟩

theorem mem_user_calls (env : Collab R G) (rated : Nat → Option (List Nat)) (nneg : Nat)
    (n uid : Nat) (g : G) (c : Call R) (hc : c ∈ user_calls env rated nneg n uid g) :
    uid ≤ c.uid ∧ c.uid < uid + n
      ∧ (∀ u, uid ≤ u → u ≤ c.uid → rated u ≠ none)
      ∧ ∃ item_map, rated c.uid = some item_map ∧ c.iid ∈ item_map ∧ c.rui = 1
          ∧ ∃ g', c.jid = (env.sample_negative_item item_map g').1 := by
  induction n generalizing uid g with
  | zero => simp [user_calls] at hc
  | succ n ih =>
    unfold user_calls at hc
    cases hr : rated uid with
    | none => simp [hr] at hc
    | some item_map =>
      simp only [hr, List.mem_append] at hc
      rcases hc with hc | hc
      · obtain ⟨h1, h2, h3, h4⟩ := mem_item_calls env uid item_map nneg item_map g c hc
        refine ⟨by omega, by omega, fun u hu hu' => ?_, item_map, by rw [h1, hr], h2, h3, h4⟩
        have : u = uid := by omega
        simp [this, hr]
      · obtain ⟨h1, h2, h3, h4⟩ := ih _ _ hc
        refine ⟨by omega, by omega, fun u hu hu' => ?_, h4⟩
        rcases Nat.eq_or_lt_of_le hu with rfl | hlt
        · simp [hr]
        · exact h3 u hlt hu'

end trace_lemmas

section schedule_lemmas
variable {R G : Type} [Add R] [Sub R] [Mul R] [Div R] [Neg R] [OfNat R 2] [One R]

theorem neg_loop_eq (env : Collab R G) (uid iid : Nat) (item_map : List Nat) (n : Nat)
    (st : Sweep R G) :
    neg_loop env uid iid item_map n st
      = { self := run_calls env st.self (neg_calls env uid iid item_map n st.rng)
          rng := neg_rng env item_map n st.rng
          calls := st.calls ++ neg_calls env uid iid item_map n st.rng } := by
  induction n generalizing st with
  | zero => simp [neg_loop, neg_calls, neg_rng]
  | succ n ih => simp [neg_loop, neg_calls, neg_rng, ih]

theorem item_loop_eq (env : Collab R G) (uid : Nat) (item_map items : List Nat)
    (st : Sweep R G) :
    item_loop env uid item_map items st
      = { self := run_calls env st.self
            (item_calls env uid item_map st.self.num_neg_ items st.rng)
          rng := item_rng env item_map st.self.num_neg_ items st.rng
          calls := st.calls ++ item_calls env uid item_map st.self.num_neg_ items st.rng } := by
  induction items generalizing st with
  | nil => simp [item_loop, item_calls, item_rng]
  | cons iid rest ih =>
    simp [item_loop, item_calls, item_rng, ih, neg_loop_eq, run_calls_append]

theorem user_loop_eq (env : Collab R G) (n uid : Nat) (st : Sweep R G) :
    user_loop env n uid st
      = (if user_missing st.self.user_rated_items_ n uid then Outcome.aborted
          else Outcome.finished)
        { self := run_calls env st.self
            (user_calls env st.self.user_rated_items_ st.self.num_neg_ n uid st.rng)
          rng := user_rng env st.self.user_rated_items_ st.self.num_neg_ n uid st.rng
          calls := st.calls
            ++ user_calls env st.self.user_rated_items_ st.self.num_neg_ n uid st.rng } := by
  induction n generalizing uid st with
  | zero => simp [user_loop, user_calls, user_rng, user_missing]
  | succ n ih =>
    unfold user_loop user_calls user_rng user_missing
    cases h : st.self.user_rated_items_ uid with
    | none => simp
    | some item_map => simp [ih, item_loop_eq, run_calls_append]

/-- The epoch driver in closed form: the object after the scheduled invocations, the
generator state, the log, and whether `CHECK` fired. -/
theorem train_one_iteration_eq (env : Collab R G) (m : BPR R) (rng : G) :
    train_one_iteration env m rng
      = (if user_missing m.user_rated_items_ m.num_users_ 0 then Outcome.aborted
          else Outcome.finished)
        { self := run_calls env m
            (user_calls env m.user_rated_items_ m.num_neg_ m.num_users_ 0 rng)
          rng := user_rng env m.user_rated_items_ m.num_neg_ m.num_users_ 0 rng
          calls := user_calls env m.user_rated_items_ m.num_neg_ m.num_users_ 0 rng } := by
  simp [train_one_iteration, user_loop_eq]

/-- The object reached is the result of the logged invocations, however the run ends. -/
theorem train_one_iteration_self (env : Collab R G) (m : BPR R) (rng : G) :
    (train_one_iteration env m rng).reached.self
      = run_calls env m (train_one_iteration env m rng).reached.calls := by
  rw [train_one_iteration_eq]; split_ifs <;> rfl

/-- The log is the schedule of invocations, however the run ends. -/
theorem train_one_iteration_calls (env : Collab R G) (m : BPR R) (rng : G) :
    (train_one_iteration env m rng).reached.calls
      = user_calls env m.user_rated_items_ m.num_neg_ m.num_users_ 0 rng := by
  rw [train_one_iteration_eq]; split_ifs <;> rfl

end schedule_lemmas

section field_lemmas
variable {R G : Type} [Field R]

end field_lemmas

section accumulator_lemmas
variable {R G : Type} [Add R] [Sub R] [Mul R] [Div R] [Neg R] [OfNat R 2]

end accumulator_lemmas

section order_lemmas
variable {R G : Type} [Preorder R]

variable [Add R] [Mul R] [Div R]

variable [Sub R] [Neg R] [OfNat R 2]

end order_lemmas

section exact_order_lemmas
variable {R G : Type} [LinearOrderedField R]

/-- A gradient divided by `beta` plus the root of an accumulator that already holds its
square is at most 1 in absolute value. -/
theorem rescaled_abs_le_one (sqrt : R → R)
    (hsq : ∀ x, 0 ≤ x → 0 ≤ sqrt x ∧ sqrt x * sqrt x = x)
    (beta acc g : R) (hbeta : 0 ≤ beta) (hacc : 0 ≤ acc)
    (hne : beta + sqrt (acc + g ^ 2) ≠ 0) :
    |g / (beta + sqrt (acc + g ^ 2))| ≤ 1 := by
  obtain ⟨h0, h1⟩ := hsq (acc + g ^ 2) (add_nonneg hacc (sq_nonneg g))
  have hg : |g| ≤ sqrt (acc + g ^ 2) := by
    by_contra hlt
    have hlt' : sqrt (acc + g ^ 2) < |g| := lt_of_not_le hlt
    have h2 : sqrt (acc + g ^ 2) * sqrt (acc + g ^ 2) < |g| * |g| :=
      mul_self_lt_mul_self h0 hlt'
    rw [h1, abs_mul_abs_self] at h2
    nlinarith
  have hpos : 0 < beta + sqrt (acc + g ^ 2) :=
    lt_of_le_of_ne (add_nonneg hbeta h0) (Ne.symm hne)
  rw [abs_div, abs_of_pos hpos, div_le_one hpos]
  linarith

/-- A decrement by `lr` times a quantity of absolute value at most 1 moves by at most `lr`. -/
theorem step_abs_le (lr old q : R) (hlr : 0 ≤ lr) (hq : |q| ≤ 1) :
    |(old - lr * q) - old| ≤ lr := by
  have : (old - lr * q) - old = - (lr * q) := by ring
  rw [this, abs_neg, abs_mul, abs_of_nonneg hlr]
  exact mul_le_of_le_one_right hlr hq

end exact_order_lemmas

section margin_lemmas
variable {R G : Type} [Field R]

theorem dot_step (n : Nat) (u d : Nat → R) (a : R) :
    dot n (fun k => u k - a * d k) (fun k => d k - 2 * a * u k)
      = dot n u d - a * (2 * dot n u u + dot n d d - 2 * a * dot n u d) := by
  unfold dot
  rw [Finset.sum_congr rfl (fun k _ => show (u k - a * d k) * (d k - 2 * a * u k)
    = u k * d k - a * (2 * (u k * u k) + d k * d k - 2 * a * (u k * d k)) by ring)]
  simp only [Finset.sum_sub_distrib, Finset.sum_add_distrib, ← Finset.mul_sum]

theorem dot_sub (n : Nat) (u v w : Nat → R) :
    dot n u v - dot n u w = dot n u (fun k => v k - w k) := by
  unfold dot
  rw [← Finset.sum_sub_distrib]
  exact Finset.sum_congr rfl (fun k _ => by ring)

theorem margin_eq (m : BPR R) (uid iid jid : Nat) :
    margin m uid iid jid
      = dot m.num_dim_ (m.uv_ uid) (fun k => m.iv_ iid k - m.iv_ jid k)
          + (if m.using_bias_term_ then m.ib_ iid - m.ib_ jid else 0) := by
  unfold margin predict_dot_bias
  rw [← dot_sub]
  split_ifs <;> ring

/-- The margin after one plain step with `lambda = 0`, for distinct items. -/
theorem margin_train_one_pair (env : Collab R G) (m : BPR R) (uid iid jid : Nat) (rui : R)
    (hlam : m.lambda_ = 0) (hada : m.using_adagrad_ = false) (hij : iid ≠ jid) :
    margin (train_one_pair env m uid iid jid rui) uid iid jid
      = margin m uid iid jid
        - m.learn_rate_ * pair_gradient env m uid iid jid rui
          * ((if m.using_bias_term_ then 2 else 0)
              + 2 * dot m.num_dim_ (m.uv_ uid) (m.uv_ uid)
              + dot m.num_dim_ (fun k => m.iv_ iid k - m.iv_ jid k)
                  (fun k => m.iv_ iid k - m.iv_ jid k)
              - 2 * (m.learn_rate_ * pair_gradient env m uid iid jid rui)
                * dot m.num_dim_ (m.uv_ uid) (fun k => m.iv_ iid k - m.iv_ jid k)) := by
  have hji : jid ≠ iid := fun h => hij h.symm
  rw [margin_eq, margin_eq]
  have hu : (train_one_pair env m uid iid jid rui).uv_ uid = fun k => m.uv_ uid k
      - m.learn_rate_ * pair_gradient env m uid iid jid rui * (m.iv_ iid k - m.iv_ jid k) := by
    funext k
    simp [train_one_pair, apply_block, adagrad_block, raw_gradients, raw_gradients_at, hada,
      hlam, mul_assoc]
  have hd : (fun k => (train_one_pair env m uid iid jid rui).iv_ iid k
      - (train_one_pair env m uid iid jid rui).iv_ jid k) = fun k => (m.iv_ iid k - m.iv_ jid k)
      - 2 * (m.learn_rate_ * pair_gradient env m uid iid jid rui) * m.uv_ uid k := by
    funext k
    simp [train_one_pair, apply_block, adagrad_block, raw_gradients, raw_gradients_at, hada,
      hlam, Function.update_noteq hij, Function.update_noteq hji]
    ring
  have hb : (if m.using_bias_term_ then (train_one_pair env m uid iid jid rui).ib_ iid
      - (train_one_pair env m uid iid jid rui).ib_ jid else 0)
        = (if m.using_bias_term_ then m.ib_ iid - m.ib_ jid else 0)
        - (if m.using_bias_term_ then 2 else 0)
          * (m.learn_rate_ * pair_gradient env m uid iid jid rui) := by
    cases hbias : m.using_bias_term_
    · simp
    · simp [train_one_pair, apply_block, adagrad_block, raw_gradients, raw_gradients_at,
        hada, hbias, hlam, Function.update_noteq hij, Function.update_noteq hji]
      ring
  rw [train_one_pair_using_bias_term, hu, hd, hb, train_one_pair_num_dim, dot_step]
  ring

end margin_lemmas

section sum_lemmas
variable {R G : Type} [Field R]

/-- Overwriting one entry below `n` changes the sum of the first `n` entries by the
difference of the new and the old entry. -/
theorem sum_update_range (f : Nat → R) (n i : Nat) (b : R) (hi : i < n) :
    Finset.sum (Finset.range n) (Function.update f i b)
      = Finset.sum (Finset.range n) f - f i + b := by
  have hmem : i ∈ Finset.range n := Finset.mem_range.2 hi
  rw [Finset.sum_update_of_mem hmem, ← Finset.add_sum_erase (Finset.range n) f hmem,
    Finset.sdiff_singleton_eq_erase]
  ring

/-- Two successive in-place decrements by opposite amounts leave the sum as it was, also
when they hit the same entry. -/
theorem sum_update_pair (f : Nat → R) (n i j : Nat) (a : R) (hi : i < n) (hj : j < n) :
    Finset.sum (Finset.range n)
        (Function.update (Function.update f i (f i - a)) j
          (Function.update f i (f i - a) j - (- a)))
      = Finset.sum (Finset.range n) f := by
  rw [sum_update_range _ n j _ hj, sum_update_range _ n i _ hi]
  ring

theorem train_one_pair_item_sums (env : Collab R G) (m : BPR R) (uid iid jid : Nat) (rui : R)
    (hlam : m.lambda_ = 0) (hada : m.using_adagrad_ = false)
    (hi : iid < m.num_items_) (hj : jid < m.num_items_) :
    Finset.sum (Finset.range m.num_items_) (train_one_pair env m uid iid jid rui).ib_
        = Finset.sum (Finset.range m.num_items_) m.ib_
    ∧ ∀ k, Finset.sum (Finset.range m.num_items_)
          (fun x => (train_one_pair env m uid iid jid rui).iv_ x k)
        = Finset.sum (Finset.range m.num_items_) (fun x => m.iv_ x k) := by
  constructor
  · cases hbias : m.using_bias_term_
    · simp [train_one_pair, apply_block, adagrad_block, raw_gradients, raw_gradients_at,
        hada, hbias]
    · have h := sum_update_pair m.ib_ m.num_items_ iid jid
        (m.learn_rate_ * pair_gradient env m uid iid jid rui) hi hj
      simpa [train_one_pair, apply_block, adagrad_block, raw_gradients, raw_gradients_at,
        hada, hbias, hlam] using h
  · intro k
    have h := sum_update_pair (fun x => m.iv_ x k) m.num_items_ iid jid
      (m.learn_rate_ * (pair_gradient env m uid iid jid rui * m.uv_ uid k)) hi hj
    have e : (fun x => (train_one_pair env m uid iid jid rui).iv_ x k)
        = Function.update (Function.update (fun x => m.iv_ x k) iid
            (m.iv_ iid k - m.learn_rate_ * (pair_gradient env m uid iid jid rui * m.uv_ uid k)))
          jid (Function.update (fun x => m.iv_ x k) iid
            (m.iv_ iid k - m.learn_rate_ * (pair_gradient env m uid iid jid rui * m.uv_ uid k))
              jid
            - (- (m.learn_rate_ * (pair_gradient env m uid iid jid rui * m.uv_ uid k)))) := by
      funext x
      by_cases hxj : x = jid
      · subst hxj
        by_cases hxi : x = iid
        · subst hxi
          simp [train_one_pair, apply_block, adagrad_block, raw_gradients, raw_gradients_at,
            hada, hlam]
        · simp [train_one_pair, apply_block, adagrad_block, raw_gradients, raw_gradients_at,
            hada, hlam, Function.update_noteq hxi]
      · by_cases hxi : x = iid
        · subst hxi
          simp [train_one_pair, apply_block, adagrad_block, raw_gradients, raw_gradients_at,
            hada, hlam, Function.update_noteq hxj]
        · simp [train_one_pair, apply_block, adagrad_block, raw_gradients, raw_gradients_at,
            hada, hlam, Function.update_noteq hxj, Function.update_noteq hxi]
    rw [e]; exact h

/-- The item sums are the same after any list of invocations on items below
`num_items_`. -/
theorem run_calls_item_sums (env : Collab R G) (m : BPR R) (cs : List (Call R))
    (hlam : m.lambda_ = 0) (hada : m.using_adagrad_ = false)
    (h : ∀ c ∈ cs, c.iid < m.num_items_ ∧ c.jid < m.num_items_) :
    Finset.sum (Finset.range m.num_items_) (run_calls env m cs).ib_
        = Finset.sum (Finset.range m.num_items_) m.ib_
    ∧ ∀ k, Finset.sum (Finset.range m.num_items_) (fun x => (run_calls env m cs).iv_ x k)
        = Finset.sum (Finset.range m.num_items_) (fun x => m.iv_ x k) := by
  induction cs generalizing m with
  | nil => exact ⟨rfl, fun _ => rfl⟩
  | cons c cs ih =>
    have hc := h c (List.mem_cons_self _ _)
    have h1 := train_one_pair_item_sums env m c.uid c.iid c.jid c.rui hlam hada hc.1 hc.2
    have h2 := ih (train_one_pair env m c.uid c.iid c.jid c.rui) (by simpa using hlam)
      (by simpa using hada) (fun d hd => by simpa using h d (List.mem_cons_of_mem _ hd))
    rw [train_one_pair_num_items] at h2
    rw [run_calls_cons]
    exact ⟨h2.1.trans h1.1, fun k => (h2.2 k).trans (h1.2 k)⟩

end sum_lemmas

section example_lemmas

theorem toy_sample_cases (g : Nat) :
    (toy_sample [0] g).1 = 1 ∨ (toy_sample [0] g).1 = 2 := by
  unfold toy_sample
  split_ifs with h1 h2 <;> simp at * <;> omega

theorem toy_sample_lt (item_map : List Nat) (g : Nat) : (toy_sample item_map g).1 < 3 := by
  unfold toy_sample
  split_ifs <;> exact Nat.mod_lt _ (by decide)

theorem toy_model_rated (uid : Nat) (item_map : List Nat)
    (h : toy_model.user_rated_items_ uid = some item_map) : item_map = [0] := by
  simp only [toy_model] at h
  split_ifs at h
  exact (Option.some.inj h).symm

theorem even_margin : margin (even_model : BPR ℝ) 0 0 1 = 0 := by
  simp [margin, predict_dot_bias, even_model]

theorem even_gradient :
    pair_gradient (spec_env Real.exp Real.sqrt (fun _ (g : Unit) => (1, g))) even_model 0 0 1 1
      = 1 / 2 := by
  simp [pair_gradient, spec_env, logistic_gradient, sigmoid, predict_dot_bias, even_model]
  norm_num

theorem plain_gradient : pair_gradient toy_env plain_model 0 0 1 1 = -1 := by
  simp [pair_gradient, toy_env, predict_dot_bias, plain_model, toy_model, dot]
  norm_num

theorem toy_gradient : pair_gradient toy_env toy_model 0 0 1 1 = -1 := by
  simp [pair_gradient, toy_env, predict_dot_bias, toy_model, dot]
  norm_num

theorem even_hinge_gradient : pair_gradient toy_env even_model 0 0 1 1 = -1 := by
  simp [pair_gradient, toy_env, predict_dot_bias, even_model]

theorem toy_calls : (train_one_iteration toy_env toy_model 0).reached.calls
    = [] ++ (⟨0, 0, 1, 1⟩ : Call ℚ) :: [⟨0, 0, 2, 1⟩] := rfl

theorem swap_model_rated (uid : Nat) (item_map : List Nat)
    (h : swap_model.user_rated_items_ uid = some item_map) :
    item_map = [1] ∨ item_map = [0] := by
  simp only [swap_model] at h
  split_ifs at h
  · exact Or.inl (Option.some.inj h).symm
  · exact Or.inr (Option.some.inj h).symm

end example_lemmas

section pair_theorems
variable {R G : Type} [Add R] [Sub R] [Mul R] [Div R] [Neg R] [OfNat R 2]

/-- C1. Without adaptive scaling and with the bias term, for distinct items `iid ≠ jid`,
`train_one_pair` with `g = loss.gradient(predict(u,i) - predict(u,j), label)` yields
`bias(i) - lr*(g + 2*lambda*bias(i))`, `bias(j) - lr*(-g + 2*lambda*bias(j))`,
`uservec(u) - lr*(g*(itemvec(i) - itemvec(j)) + 2*lambda*uservec(u))`,
`itemvec(i) - lr*(g*uservec(u) + 2*lambda*itemvec(i))` and
`itemvec(j) - lr*(-g*uservec(u) + 2*lambda*itemvec(j))`, every right-hand side being read
from the object before the call. -/
theorem train_one_pair_plain_step (env : Collab R G) (m : BPR R) (uid iid jid : Nat) (rui : R)
    (hada : m.using_adagrad_ = false) (hbias : m.using_bias_term_ = true) (hij : iid ≠ jid) :
    pair_gradient env m uid iid jid rui
        = env.gradient
            (env.predict_user_item_rating m uid iid - env.predict_user_item_rating m uid jid) rui
    ∧ (train_one_pair env m uid iid jid rui).ib_ iid
        = m.ib_ iid - m.learn_rate_ *
            (pair_gradient env m uid iid jid rui + 2 * m.lambda_ * m.ib_ iid)
    ∧ (train_one_pair env m uid iid jid rui).ib_ jid
        = m.ib_ jid - m.learn_rate_ *
            (- pair_gradient env m uid iid jid rui + 2 * m.lambda_ * m.ib_ jid)
    ∧ (∀ k, (train_one_pair env m uid iid jid rui).uv_ uid k
        = m.uv_ uid k - m.learn_rate_ *
            (pair_gradient env m uid iid jid rui * (m.iv_ iid k - m.iv_ jid k)
              + 2 * m.lambda_ * m.uv_ uid k))
    ∧ (∀ k, (train_one_pair env m uid iid jid rui).iv_ iid k
        = m.iv_ iid k - m.learn_rate_ *
            (pair_gradient env m uid iid jid rui * m.uv_ uid k + 2 * m.lambda_ * m.iv_ iid k))
    ∧ (∀ k, (train_one_pair env m uid iid jid rui).iv_ jid k
        = m.iv_ jid k - m.learn_rate_ *
            (- pair_gradient env m uid iid jid rui * m.uv_ uid k
              + 2 * m.lambda_ * m.iv_ jid k)) := by
  have hji : jid ≠ iid := fun h => hij h.symm
  refine ⟨rfl, ?_⟩
  simp [train_one_pair, apply_block, adagrad_block, raw_gradients, raw_gradients_at, hada, hbias,
    Function.update_noteq hij, Function.update_noteq hji]

/-- C1 at the scenario with adaptive scaling switched off, update `(0, 0, 1, 1)`: the loss
gradient is `-1` and the five touched coordinates take the values the formulas give. -/
theorem train_one_pair_plain_step_witness :
    plain_model.using_adagrad_ = false ∧ plain_model.using_bias_term_ = true ∧ (0 : Nat) ≠ 1
    ∧ (train_one_pair toy_env plain_model 0 0 1 1).ib_ 0 = 1 / 10
    ∧ (train_one_pair toy_env plain_model 0 0 1 1).ib_ 1 = - (1 / 10)
    ∧ (train_one_pair toy_env plain_model 0 0 1 1).uv_ 0 0 = 237 / 500
    ∧ (train_one_pair toy_env plain_model 0 0 1 1).iv_ 0 0 = 1 / 20
    ∧ (train_one_pair toy_env plain_model 0 0 1 1).iv_ 1 0 = 399 / 2000 := by
  obtain ⟨_, h1, h2, h3, h4, h5⟩ :=
    train_one_pair_plain_step toy_env plain_model 0 0 1 1 rfl rfl (by decide)
  rw [h1, h2, h3 0, h4 0, h5 0, plain_gradient]
  refine ⟨rfl, rfl, by decide, ?_⟩
  norm_num [plain_model, toy_model]

/-- C2. With adaptive scaling and the bias term, for distinct items `iid ≠ jid`,
`train_one_pair` first adds to each touched accumulator entry the square `grad * grad` of
that entry's own raw gradient (the raw gradients being those of lines 78-82, read before
the call), and then decrements each parameter coordinate by
`lr * (grad / (beta + sqrt(acc')))`, where `acc'` is that coordinate's own accumulator
after the addition. The statement keeps the source's order of operations (the divisor of
a vector coordinate is written `sqrt(acc') + beta` there) and uses no law of arithmetic:
it holds for binary64 as for exact arithmetic, also where a divisor is zero. -/
theorem train_one_pair_adagrad_step (env : Collab R G) (m : BPR R) (uid iid jid : Nat)
    (rui : R) (hada : m.using_adagrad_ = true) (hbias : m.using_bias_term_ = true)
    (hij : iid ≠ jid) :
    ((train_one_pair env m uid iid jid rui).ib_ag_ iid
        = m.ib_ag_ iid + (raw_gradients env m uid iid jid rui).ib_grad
            * (raw_gradients env m uid iid jid rui).ib_grad
      ∧ (train_one_pair env m uid iid jid rui).ib_ag_ jid
        = m.ib_ag_ jid + (raw_gradients env m uid iid jid rui).jb_grad
            * (raw_gradients env m uid iid jid rui).jb_grad
      ∧ (∀ k, (train_one_pair env m uid iid jid rui).uv_ag_ uid k
        = m.uv_ag_ uid k + (raw_gradients env m uid iid jid rui).uv_grad k
            * (raw_gradients env m uid iid jid rui).uv_grad k)
      ∧ (∀ k, (train_one_pair env m uid iid jid rui).iv_ag_ iid k
        = m.iv_ag_ iid k + (raw_gradients env m uid iid jid rui).iv_grad k
            * (raw_gradients env m uid iid jid rui).iv_grad k)
      ∧ (∀ k, (train_one_pair env m uid iid jid rui).iv_ag_ jid k
        = m.iv_ag_ jid k + (raw_gradients env m uid iid jid rui).jv_grad k
            * (raw_gradients env m uid iid jid rui).jv_grad k))
    ∧ ((train_one_pair env m uid iid jid rui).ib_ iid
        = m.ib_ iid - m.learn_rate_ * ((raw_gradients env m uid iid jid rui).ib_grad
            / (m.beta_ + env.sqrt ((train_one_pair env m uid iid jid rui).ib_ag_ iid)))
      ∧ (train_one_pair env m uid iid jid rui).ib_ jid
        = m.ib_ jid - m.learn_rate_ * ((raw_gradients env m uid iid jid rui).jb_grad
            / (m.beta_ + env.sqrt ((train_one_pair env m uid iid jid rui).ib_ag_ jid)))
      ∧ (∀ k, (train_one_pair env m uid iid jid rui).uv_ uid k
        = m.uv_ uid k - m.learn_rate_ * ((raw_gradients env m uid iid jid rui).uv_grad k
            / (env.sqrt ((train_one_pair env m uid iid jid rui).uv_ag_ uid k) + m.beta_)))
      ∧ (∀ k, (train_one_pair env m uid iid jid rui).iv_ iid k
        = m.iv_ iid k - m.learn_rate_ * ((raw_gradients env m uid iid jid rui).iv_grad k
            / (env.sqrt ((train_one_pair env m uid iid jid rui).iv_ag_ iid k) + m.beta_)))
      ∧ (∀ k, (train_one_pair env m uid iid jid rui).iv_ jid k
        = m.iv_ jid k - m.learn_rate_ * ((raw_gradients env m uid iid jid rui).jv_grad k
            / (env.sqrt ((train_one_pair env m uid iid jid rui).iv_ag_ jid k) + m.beta_))))
    ∧ ((raw_gradients env m uid iid jid rui).ib_grad
        = pair_gradient env m uid iid jid rui + 2 * m.lambda_ * m.ib_ iid
      ∧ (raw_gradients env m uid iid jid rui).jb_grad
        = - pair_gradient env m uid iid jid rui + 2 * m.lambda_ * m.ib_ jid
      ∧ (∀ k, (raw_gradients env m uid iid jid rui).uv_grad k
        = pair_gradient env m uid iid jid rui * (m.iv_ iid k - m.iv_ jid k)
            + 2 * m.lambda_ * m.uv_ uid k)
      ∧ (∀ k, (raw_gradients env m uid iid jid rui).iv_grad k
        = pair_gradient env m uid iid jid rui * m.uv_ uid k + 2 * m.lambda_ * m.iv_ iid k)
      ∧ (∀ k, (raw_gradients env m uid iid jid rui).jv_grad k
        = - pair_gradient env m uid iid jid rui * m.uv_ uid k
            + 2 * m.lambda_ * m.iv_ jid k)) := by
  have hji : jid ≠ iid := fun h => hij h.symm
  refine ⟨?_, ?_, rfl, rfl, fun _ => rfl, fun _ => rfl, fun _ => rfl⟩
  · simp [train_one_pair, apply_block, adagrad_block, adagrad_vectors, adagrad_bias,
      raw_gradients, raw_gradients_at, hada, hbias, Function.update_noteq hij,
      Function.update_noteq hji]
  · simp [train_one_pair, apply_block, adagrad_block, adagrad_vectors, adagrad_bias,
      raw_gradients, raw_gradients_at, hada, hbias, Function.update_noteq hij,
      Function.update_noteq hji]

/-- C2 at the scenario over the rationals, update `(0, 0, 1, 1)`: the raw gradient of
`bias(0)` is `-1`, its accumulator becomes 1 and the bias moves by
`1/10 * (1 / (1 + sqrt 1))`; the accumulator of the user coordinate becomes the square of
its raw gradient `13/50`. And over binary64 with `beta = 0`, zero accumulators and raw
gradient 0 for `bias(0)`: the divisor is 0, the quotient `0 / 0` is not a number, and that
is what the bias becomes. -/
theorem train_one_pair_adagrad_step_witness :
    toy_model.using_adagrad_ = true ∧ toy_model.using_bias_term_ = true ∧ (0 : Nat) ≠ 1
    ∧ (train_one_pair toy_env toy_model 0 0 1 1).ib_ag_ 0 = 1
    ∧ (train_one_pair toy_env toy_model 0 0 1 1).ib_ 0 = 1 / 20
    ∧ (train_one_pair toy_env toy_model 0 0 1 1).uv_ag_ 0 0 = 169 / 2500
    ∧ (raw_gradients f64_env zero_divisor_model 0 0 1 1).ib_grad = 0
    ∧ zero_divisor_model.beta_
        + f64_env.sqrt ((train_one_pair f64_env zero_divisor_model 0 0 1 1).ib_ag_ 0) = 0
    ∧ (train_one_pair f64_env zero_divisor_model 0 0 1 1).ib_ 0 = F64.nan := by
  obtain ⟨⟨a1, _, a3, _, _⟩, ⟨b1, _⟩, g1, _, g3, _⟩ :=
    train_one_pair_adagrad_step toy_env toy_model 0 0 1 1 rfl rfl (by decide)
  obtain ⟨_, ⟨c1, _⟩, _⟩ :=
    train_one_pair_adagrad_step f64_env zero_divisor_model 0 0 1 1 rfl rfl (by decide)
  rw [b1, a1, a3 0, g1, g3 0, toy_gradient, c1]
  refine ⟨rfl, rfl, by decide, ?_, ?_, ?_, by decide, by decide, by decide⟩
  · norm_num [toy_model]
  · have : toy_env.sqrt 1 = 1 := by simp [toy_env, qsqrt]
    norm_num [toy_model, this]
  · norm_num [toy_model]

/-- C7. `train_one_pair uid iid jid` leaves every user-vector row and user accumulator row
other than row `uid`, and every item-vector row, item bias, item-vector accumulator row and
item-bias accumulator entry of an item other than `iid` and `jid`, as they were; the
configuration (learning rate, beta, lambda, number of negatives, dimension, the two flags)
and the sizes and interaction map are unchanged. -/
theorem train_one_pair_frame (env : Collab R G) (m : BPR R) (uid iid jid : Nat) (rui : R) :
    (∀ u, u ≠ uid → (train_one_pair env m uid iid jid rui).uv_ u = m.uv_ u
        ∧ (train_one_pair env m uid iid jid rui).uv_ag_ u = m.uv_ag_ u)
    ∧ (∀ x, x ≠ iid → x ≠ jid →
        (train_one_pair env m uid iid jid rui).iv_ x = m.iv_ x
        ∧ (train_one_pair env m uid iid jid rui).ib_ x = m.ib_ x
        ∧ (train_one_pair env m uid iid jid rui).iv_ag_ x = m.iv_ag_ x
        ∧ (train_one_pair env m uid iid jid rui).ib_ag_ x = m.ib_ag_ x)
    ∧ (train_one_pair env m uid iid jid rui).learn_rate_ = m.learn_rate_
    ∧ (train_one_pair env m uid iid jid rui).beta_ = m.beta_
    ∧ (train_one_pair env m uid iid jid rui).lambda_ = m.lambda_
    ∧ (train_one_pair env m uid iid jid rui).num_neg_ = m.num_neg_
    ∧ (train_one_pair env m uid iid jid rui).num_dim_ = m.num_dim_
    ∧ (train_one_pair env m uid iid jid rui).using_bias_term_ = m.using_bias_term_
    ∧ (train_one_pair env m uid iid jid rui).using_adagrad_ = m.using_adagrad_
    ∧ (train_one_pair env m uid iid jid rui).num_users_ = m.num_users_
    ∧ (train_one_pair env m uid iid jid rui).num_items_ = m.num_items_
    ∧ (train_one_pair env m uid iid jid rui).user_rated_items_ = m.user_rated_items_ := by
  refine ⟨(train_one_pair_other env m uid iid jid rui).1,
    (train_one_pair_other env m uid iid jid rui).2, ?_⟩
  simp

/-- C7 at the scenario model, update `(0, 0, 1)`: item 2 keeps its bias and its latent row. -/
theorem train_one_pair_frame_witness :
    (train_one_pair toy_env toy_model 0 0 1 1).ib_ 2 = 0
    ∧ (train_one_pair toy_env toy_model 0 0 1 1).iv_ 2 0 = 1 / 2
    ∧ (train_one_pair toy_env toy_model 0 0 1 1).learn_rate_ = 1 / 10 := by
  have h := train_one_pair_frame toy_env toy_model 0 0 1 1
  have h2 := h.2.1 2 (by decide) (by decide)
  refine ⟨?_, ?_, ?_⟩
  · rw [h2.2.1]; rfl
  · rw [h2.1]; norm_num [toy_model]
  · rw [h.2.2.1]; rfl

/-- C10. With the bias term disabled, `train_one_pair` leaves every item bias and every
item-bias accumulator entry as it was, with adaptive scaling on or off and for all ids. The
latent rows and their accumulators are those of the bias-enabled object whenever the loss
gradient is the same; for `iid ≠ jid` they are, without adaptive scaling, the three vector
formulas of C1, and with adaptive scaling the accumulator additions and rescaled
decrements of C2, in the source's order of operations. No law of arithmetic is used: the
statement holds for binary64 as for exact arithmetic, also where a divisor is zero. -/
theorem train_one_pair_without_bias (env : Collab R G) (m : BPR R) (uid iid jid : Nat)
    (rui : R) (hbias : m.using_bias_term_ = false) :
    ((train_one_pair env m uid iid jid rui).ib_ = m.ib_
      ∧ (train_one_pair env m uid iid jid rui).ib_ag_ = m.ib_ag_)
    ∧ (pair_gradient env { m with using_bias_term_ := true } uid iid jid rui
          = pair_gradient env m uid iid jid rui →
        (train_one_pair env m uid iid jid rui).uv_
            = (train_one_pair env { m with using_bias_term_ := true } uid iid jid rui).uv_
        ∧ (train_one_pair env m uid iid jid rui).iv_
            = (train_one_pair env { m with using_bias_term_ := true } uid iid jid rui).iv_
        ∧ (train_one_pair env m uid iid jid rui).uv_ag_
            = (train_one_pair env { m with using_bias_term_ := true } uid iid jid rui).uv_ag_
        ∧ (train_one_pair env m uid iid jid rui).iv_ag_
            = (train_one_pair env { m with using_bias_term_ := true } uid iid jid rui).iv_ag_)
    ∧ (iid ≠ jid → m.using_adagrad_ = false →
        (∀ k, (train_one_pair env m uid iid jid rui).uv_ uid k
          = m.uv_ uid k - m.learn_rate_ *
              (pair_gradient env m uid iid jid rui * (m.iv_ iid k - m.iv_ jid k)
                + 2 * m.lambda_ * m.uv_ uid k))
        ∧ (∀ k, (train_one_pair env m uid iid jid rui).iv_ iid k
          = m.iv_ iid k - m.learn_rate_ *
              (pair_gradient env m uid iid jid rui * m.uv_ uid k
                + 2 * m.lambda_ * m.iv_ iid k))
        ∧ (∀ k, (train_one_pair env m uid iid jid rui).iv_ jid k
          = m.iv_ jid k - m.learn_rate_ *
              (- pair_gradient env m uid iid jid rui * m.uv_ uid k
                + 2 * m.lambda_ * m.iv_ jid k)))
    ∧ (iid ≠ jid → m.using_adagrad_ = true →
        ((∀ k, (train_one_pair env m uid iid jid rui).uv_ag_ uid k
            = m.uv_ag_ uid k + (raw_gradients env m uid iid jid rui).uv_grad k
                * (raw_gradients env m uid iid jid rui).uv_grad k)
          ∧ (∀ k, (train_one_pair env m uid iid jid rui).iv_ag_ iid k
            = m.iv_ag_ iid k + (raw_gradients env m uid iid jid rui).iv_grad k
                * (raw_gradients env m uid iid jid rui).iv_grad k)
          ∧ (∀ k, (train_one_pair env m uid iid jid rui).iv_ag_ jid k
            = m.iv_ag_ jid k + (raw_gradients env m uid iid jid rui).jv_grad k
                * (raw_gradients env m uid iid jid rui).jv_grad k))
        ∧ ((∀ k, (train_one_pair env m uid iid jid rui).uv_ uid k
            = m.uv_ uid k - m.learn_rate_ * ((raw_gradients env m uid iid jid rui).uv_grad k
                / (env.sqrt ((train_one_pair env m uid iid jid rui).uv_ag_ uid k)
                  + m.beta_)))
          ∧ (∀ k, (train_one_pair env m uid iid jid rui).iv_ iid k
            = m.iv_ iid k - m.learn_rate_ * ((raw_gradients env m uid iid jid rui).iv_grad k
                / (env.sqrt ((train_one_pair env m uid iid jid rui).iv_ag_ iid k)
                  + m.beta_)))
          ∧ (∀ k, (train_one_pair env m uid iid jid rui).iv_ jid k
            = m.iv_ jid k - m.learn_rate_ * ((raw_gradients env m uid iid jid rui).jv_grad k
                / (env.sqrt ((train_one_pair env m uid iid jid rui).iv_ag_ jid k)
                  + m.beta_))))) := by
  refine ⟨?_, ?_, ?_, ?_⟩
  · cases hada : m.using_adagrad_ <;>
      simp [train_one_pair, apply_block, adagrad_block, adagrad_vectors, raw_gradients,
        raw_gradients_at, hada, hbias]
  · intro hg
    unfold train_one_pair raw_gradients
    rw [hg]
    cases hada : m.using_adagrad_ <;>
      simp [apply_block, adagrad_block, adagrad_vectors, adagrad_bias, raw_gradients_at,
        hada, hbias]
  · intro hij hada
    have hji : jid ≠ iid := fun h => hij h.symm
    simp [train_one_pair, apply_block, adagrad_block, raw_gradients, raw_gradients_at, hada,
      hbias, Function.update_noteq hij, Function.update_noteq hji]
  · intro hij hada
    have hji : jid ≠ iid := fun h => hij h.symm
    constructor
    · simp [train_one_pair, apply_block, adagrad_block, adagrad_vectors,
        raw_gradients, raw_gradients_at, hada, hbias, Function.update_noteq hij,
        Function.update_noteq hji]
    · simp [train_one_pair, apply_block, adagrad_block, adagrad_vectors,
        raw_gradients, raw_gradients_at, hada, hbias, Function.update_noteq hij,
        Function.update_noteq hji]

/-- C10 at the scenario with the bias term switched off, update `(0, 0, 1)`: the biases
stay, the bias accumulators stay, and the accumulator of the user row grows by the square
of its raw gradient. And over binary64 with the bias term off, `beta = 0` and equal item
rows, update `(0, 0, 1)`: the raw gradient of the user coordinate is 0, its divisor is 0,
and the user coordinate becomes not a number, while the biases stay. -/
theorem train_one_pair_without_bias_witness :
    ({ toy_model with using_bias_term_ := false } : BPR ℚ).using_bias_term_ = false
    ∧ (train_one_pair toy_env { toy_model with using_bias_term_ := false } 0 0 1 1).ib_
        = toy_model.ib_
    ∧ (train_one_pair toy_env { toy_model with using_bias_term_ := false } 0 0 1 1).ib_ag_
        = toy_model.ib_ag_
    ∧ (∀ k, (train_one_pair toy_env { toy_model with using_bias_term_ := false } 0 0 1 1).uv_ag_
          0 k
        = toy_model.uv_ag_ 0 k
          + (raw_gradients toy_env { toy_model with using_bias_term_ := false } 0 0 1 1).uv_grad
              k
            * (raw_gradients toy_env { toy_model with using_bias_term_ := false } 0 0 1
                1).uv_grad k)
    ∧ flat_model.using_bias_term_ = false
    ∧ (train_one_pair f64_env flat_model 0 0 1 1).ib_ = flat_model.ib_
    ∧ (raw_gradients f64_env flat_model 0 0 1 1).uv_grad 0 = 0
    ∧ (train_one_pair f64_env flat_model 0 0 1 1).uv_ 0 0 = F64.nan :=
  ⟨rfl,
    (train_one_pair_without_bias toy_env { toy_model with using_bias_term_ := false } 0 0 1 1
      rfl).1.1,
    (train_one_pair_without_bias toy_env { toy_model with using_bias_term_ := false } 0 0 1 1
      rfl).1.2,
    ((train_one_pair_without_bias toy_env { toy_model with using_bias_term_ := false } 0 0 1 1
      rfl).2.2.2 (by decide) rfl).1.1,
    rfl,
    (train_one_pair_without_bias f64_env flat_model 0 0 1 1 rfl).1.1,
    by decide, by decide⟩

end pair_theorems

section epoch_theorems
variable {R G : Type} [Add R] [Sub R] [Mul R] [Div R] [Neg R] [OfNat R 2] [One R]

/-- C3. When every user id below `num_users_` has an item map, `train_one_iteration`
returns, having made exactly `num_neg_ * Σ_uid |item_map(uid)|` invocations of
`train_one_pair`: users in ascending order, within a user each key of the item map once in
iteration order, and for each `(uid, iid)` exactly `num_neg_` consecutive invocations
`(uid, iid, jid, 1)`, each `jid` being the next draw of the sampler on that user's item
map; the object reached is the result of these invocations in this order. -/
theorem train_one_iteration_schedule (env : Collab R G) (m : BPR R) (rng : G)
    (h : ∀ uid, uid < m.num_users_ → m.user_rated_items_ uid ≠ none) :
    (train_one_iteration env m rng).isAborted = false
    ∧ (train_one_iteration env m rng).reached.calls.length
        = m.num_neg_ * Finset.sum (Finset.range m.num_users_)
            (fun uid => ((m.user_rated_items_ uid).getD []).length)
    ∧ (train_one_iteration env m rng).reached.calls.map (fun c => (c.uid, c.iid, c.rui))
        = (List.range m.num_users_).flatMap (fun uid =>
            ((m.user_rated_items_ uid).getD []).flatMap (fun iid =>
              List.replicate m.num_neg_ (uid, iid, (1 : R))))
    ∧ replay_draws env m.user_rated_items_ rng (train_one_iteration env m rng).reached.calls
        = some (train_one_iteration env m rng).reached.rng
    ∧ (train_one_iteration env m rng).reached.self
        = run_calls env m (train_one_iteration env m rng).reached.calls := by
  have h0 : ∀ k, k < m.num_users_ → m.user_rated_items_ (0 + k) ≠ none := fun k hk => by
    simpa using h k hk
  have hmiss : user_missing m.user_rated_items_ m.num_users_ 0 = false := by
    cases hm : user_missing m.user_rated_items_ m.num_users_ 0 with
    | false => rfl
    | true =>
      obtain ⟨k, hk, hk'⟩ := (user_missing_iff _ _ _).1 hm
      exact absurd hk' (h0 k hk)
  rw [train_one_iteration_eq, hmiss]
  refine ⟨rfl, ?_, ?_, ?_, rfl⟩
  · simpa using user_calls_length env m.user_rated_items_ m.num_neg_ m.num_users_ 0 rng h0
  · simpa [List.range_eq_range'] using
      user_calls_map env m.user_rated_items_ m.num_neg_ m.num_users_ 0 rng h0
  · simpa using replay_user_calls env m.user_rated_items_ m.num_neg_ m.num_users_ 0 rng

/-- C3 at the scenario: one user, three items, user 0 rated item 0 only, two negatives per
positive: exactly two invocations, both `(0, 0, _, 1)`. -/
theorem train_one_iteration_schedule_witness :
    (∀ uid, uid < toy_model.num_users_ → toy_model.user_rated_items_ uid ≠ none)
    ∧ (train_one_iteration toy_env toy_model 0).isAborted = false
    ∧ (train_one_iteration toy_env toy_model 0).reached.calls.length = 2
    ∧ (train_one_iteration toy_env toy_model 0).reached.calls.map
        (fun c => (c.uid, c.iid, c.rui)) = [(0, 0, 1), (0, 0, 1)] :=
  ⟨by decide,
    (train_one_iteration_schedule toy_env toy_model 0 (by decide)).1,
    by simpa [toy_model] using (train_one_iteration_schedule toy_env toy_model 0 (by decide)).2.1,
    by simpa [toy_model, List.replicate] using
      (train_one_iteration_schedule toy_env toy_model 0 (by decide)).2.2.1⟩

/-- C4. `train_one_iteration` is aborted exactly when some user id below `num_users_` has
no item map; no invocation is made for a user id at or after a user without an item map, a
user with an empty item map gets no invocation, and the object reached is the result of
the logged invocations. -/
theorem train_one_iteration_abort (env : Collab R G) (m : BPR R) (rng : G) :
    ((train_one_iteration env m rng).isAborted = true
        ↔ ∃ uid, uid < m.num_users_ ∧ m.user_rated_items_ uid = none)
    ∧ (∀ c ∈ (train_one_iteration env m rng).reached.calls,
        ∀ uid, m.user_rated_items_ uid = none → c.uid < uid)
    ∧ (∀ uid, m.user_rated_items_ uid = some [] →
        ∀ c ∈ (train_one_iteration env m rng).reached.calls, c.uid ≠ uid)
    ∧ (train_one_iteration env m rng).reached.self
        = run_calls env m (train_one_iteration env m rng).reached.calls := by
  have hreach : (train_one_iteration env m rng).reached
      = { self := run_calls env m
            (user_calls env m.user_rated_items_ m.num_neg_ m.num_users_ 0 rng)
          rng := user_rng env m.user_rated_items_ m.num_neg_ m.num_users_ 0 rng
          calls := user_calls env m.user_rated_items_ m.num_neg_ m.num_users_ 0 rng } := by
    rw [train_one_iteration_eq]; split_ifs <;> rfl
  have habort : (train_one_iteration env m rng).isAborted
      = user_missing m.user_rated_items_ m.num_users_ 0 := by
    rw [train_one_iteration_eq]; split_ifs with hm <;> simp [Outcome.isAborted, hm]
  rw [hreach, habort]
  refine ⟨?_, ?_, ?_, rfl⟩
  · simp [user_missing_iff]
  · intro c hc uid hnone
    obtain ⟨_, _, h3, _⟩ := mem_user_calls env _ _ _ _ _ c hc
    by_contra hlt
    exact h3 uid (Nat.zero_le _) (Nat.le_of_not_lt hlt) hnone
  · intro uid hempty c hc huid
    obtain ⟨_, _, _, item_map, h4, h5, _⟩ := mem_user_calls env _ _ _ _ _ c hc
    rw [huid, hempty] at h4
    cases h4
    simp at h5

/-- C4 at the scenario with `num_users_` raised to 2: user 1 has no item map, the run is
aborted, and no invocation names user 1. -/
theorem train_one_iteration_abort_witness :
    (train_one_iteration toy_env { toy_model with num_users_ := 2 } 0).isAborted = true
    ∧ ∀ c ∈ (train_one_iteration toy_env { toy_model with num_users_ := 2 } 0).reached.calls,
        c.uid < 1 :=
  ⟨(train_one_iteration_abort toy_env { toy_model with num_users_ := 2 } 0).1.2
      ⟨1, by decide, rfl⟩,
    fun c hc =>
      (train_one_iteration_abort toy_env { toy_model with num_users_ := 2 } 0).2.1 c hc 1 rfl⟩

/-- C5. When the sampler never returns a member of a user's item map, every invocation
`(uid, iid, jid, 1)` made by `train_one_iteration` has `iid` in the item map of `uid` and
`jid` outside it (so `jid ≠ iid`), `jid` being a draw of the sampler on the item map of
that same user; when moreover the sampler draws below `num_items_`, so is every `jid`. -/
theorem train_one_iteration_negatives (env : Collab R G) (m : BPR R) (rng : G)
    (h : ∀ uid item_map g, m.user_rated_items_ uid = some item_map →
      (env.sample_negative_item item_map g).1 ∉ item_map) :
    (∀ c ∈ (train_one_iteration env m rng).reached.calls,
        ∃ item_map, m.user_rated_items_ c.uid = some item_map
          ∧ c.iid ∈ item_map ∧ c.jid ∉ item_map ∧ c.jid ≠ c.iid ∧ c.rui = 1
          ∧ ∃ g, c.jid = (env.sample_negative_item item_map g).1)
    ∧ ((∀ item_map g, (env.sample_negative_item item_map g).1 < m.num_items_) →
        ∀ c ∈ (train_one_iteration env m rng).reached.calls, c.jid < m.num_items_) := by
  have hreach : (train_one_iteration env m rng).reached.calls
      = user_calls env m.user_rated_items_ m.num_neg_ m.num_users_ 0 rng := by
    rw [train_one_iteration_eq]; split_ifs <;> rfl
  rw [hreach]
  constructor
  · intro c hc
    obtain ⟨_, _, _, item_map, h4, h5, h6, g, h7⟩ := mem_user_calls env _ _ _ _ _ c hc
    have hnot : c.jid ∉ item_map := by rw [h7]; exact h _ _ g h4
    exact ⟨item_map, h4, h5, hnot, fun e => hnot (e ▸ h5), h6, g, h7⟩
  · intro hrange c hc
    obtain ⟨_, _, _, item_map, _, _, _, g, h7⟩ := mem_user_calls env _ _ _ _ _ c hc
    rw [h7]; exact hrange _ _

/-- C5 at the scenario: the sampler avoids the item map `[0]` and draws below 3, so both
invocations have `iid = 0` and `jid` equal to 1 or 2. -/
theorem train_one_iteration_negatives_witness :
    (∀ uid item_map g, toy_model.user_rated_items_ uid = some item_map →
      (toy_env.sample_negative_item item_map g).1 ∉ item_map)
    ∧ (∀ c ∈ (train_one_iteration toy_env toy_model 0).reached.calls,
        c.iid = 0 ∧ (c.jid = 1 ∨ c.jid = 2)) := by
  have hs : ∀ uid item_map g, toy_model.user_rated_items_ uid = some item_map →
      (toy_env.sample_negative_item item_map g).1 ∉ item_map := by
    intro uid item_map g hr
    rw [toy_model_rated uid item_map hr]
    rcases toy_sample_cases g with e | e <;> simp [toy_env, e]
  refine ⟨hs, fun c hc => ?_⟩
  obtain ⟨item_map, h1, h2, h3, _⟩ :=
    (train_one_iteration_negatives toy_env toy_model 0 hs).1 c hc
  have hlt := (train_one_iteration_negatives toy_env toy_model 0 hs).2
    (fun item_map g => toy_sample_lt item_map g) c hc
  rw [toy_model_rated _ _ h1] at h2 h3
  simp only [List.mem_singleton] at h2 h3
  have : c.jid < 3 := hlt
  exact ⟨h2, by omega⟩

end epoch_theorems

section order_theorems
variable {R G : Type} [Add R] [Sub R] [Mul R] [Div R] [Neg R] [OfNat R 2] [One R] [Preorder R]

end order_theorems

section margin_theorems
variable {R G : Type} [LinearOrderedField R]

/-- C8, as the code has it, in exact arithmetic. With `lambda = 0`, no adaptive scaling and
distinct items, one `train_one_pair` with loss gradient `g` moves the margin
`m = predict(u,i) - predict(u,j)` of the dot-product score (plus the bias when the bias
term is enabled) to `m - lr*g*(b + 2*|u|^2 + |d|^2 - 2*lr*g*(u.d))`, where
`d = itemvec(i) - itemvec(j)` and `b` is 2 with the bias term and 0 without. So for
`lr > 0` and `2*lr*g*(u.d) < b + 2*|u|^2 + |d|^2`: when `g < 0` (the derivative of a
decreasing loss) the margin strictly increases and every strictly decreasing loss of the
margin strictly decreases; when `g > 0` (as for `g = 1 - sigmoid(m)`) the margin strictly
decreases and every strictly decreasing loss of the margin strictly increases. `g` is the
loss gradient at `m` when the score is the dot-product one. -/
theorem margin_after_plain_step (env : Collab R G) (m : BPR R) (uid iid jid : Nat) (rui : R)
    (hlam : m.lambda_ = 0) (hada : m.using_adagrad_ = false) (hij : iid ≠ jid) :
    margin (train_one_pair env m uid iid jid rui) uid iid jid
      = margin m uid iid jid
        - m.learn_rate_ * pair_gradient env m uid iid jid rui
          * ((if m.using_bias_term_ then 2 else 0)
              + 2 * dot m.num_dim_ (m.uv_ uid) (m.uv_ uid)
              + dot m.num_dim_ (fun k => m.iv_ iid k - m.iv_ jid k)
                  (fun k => m.iv_ iid k - m.iv_ jid k)
              - 2 * (m.learn_rate_ * pair_gradient env m uid iid jid rui)
                * dot m.num_dim_ (m.uv_ uid) (fun k => m.iv_ iid k - m.iv_ jid k))
    ∧ (0 < m.learn_rate_ →
        2 * (m.learn_rate_ * pair_gradient env m uid iid jid rui)
            * dot m.num_dim_ (m.uv_ uid) (fun k => m.iv_ iid k - m.iv_ jid k)
          < (if m.using_bias_term_ then 2 else 0)
            + 2 * dot m.num_dim_ (m.uv_ uid) (m.uv_ uid)
            + dot m.num_dim_ (fun k => m.iv_ iid k - m.iv_ jid k)
                (fun k => m.iv_ iid k - m.iv_ jid k) →
        (pair_gradient env m uid iid jid rui < 0 →
          margin m uid iid jid < margin (train_one_pair env m uid iid jid rui) uid iid jid
          ∧ ∀ loss : R → R, StrictAnti loss →
              loss (margin (train_one_pair env m uid iid jid rui) uid iid jid)
                < loss (margin m uid iid jid))
        ∧ (0 < pair_gradient env m uid iid jid rui →
          margin (train_one_pair env m uid iid jid rui) uid iid jid < margin m uid iid jid
          ∧ ∀ loss : R → R, StrictAnti loss →
              loss (margin m uid iid jid)
                < loss (margin (train_one_pair env m uid iid jid rui) uid iid jid)))
    ∧ (env.predict_user_item_rating = predict_dot_bias →
        pair_gradient env m uid iid jid rui = env.gradient (margin m uid iid jid) rui) := by
  have hm := margin_train_one_pair env m uid iid jid rui hlam hada hij
  refine ⟨hm, fun hlr hstep => ⟨fun hg => ?_, fun hg => ?_⟩, fun hp => ?_⟩
  · have h1 : m.learn_rate_ * pair_gradient env m uid iid jid rui < 0 :=
      mul_neg_of_pos_of_neg hlr hg
    have h2 : margin m uid iid jid
        < margin (train_one_pair env m uid iid jid rui) uid iid jid := by
      rw [hm]
      nlinarith [mul_pos_of_neg_of_neg h1 (sub_neg.2 hstep)]
    exact ⟨h2, fun loss hloss => hloss h2⟩
  · have h1 : 0 < m.learn_rate_ * pair_gradient env m uid iid jid rui := mul_pos hlr hg
    have h2 : margin (train_one_pair env m uid iid jid rui) uid iid jid
        < margin m uid iid jid := by
      rw [hm]
      nlinarith [mul_pos h1 (sub_pos.2 hstep)]
    exact ⟨h2, fun loss hloss => hloss h2⟩
  · simp [pair_gradient, margin, hp]

/-- C8 at the all-ones model with the hinge gradient `-1`: the margin rises above 0, and
the strictly decreasing loss `x ↦ -x` falls. -/
theorem margin_after_plain_step_witness :
    (even_model : BPR ℚ).lambda_ = 0 ∧ (even_model : BPR ℚ).using_adagrad_ = false
    ∧ (0 : Nat) ≠ 1 ∧ 0 < (even_model : BPR ℚ).learn_rate_
    ∧ pair_gradient toy_env even_model 0 0 1 1 < 0
    ∧ margin (even_model : BPR ℚ) 0 0 1
        < margin (train_one_pair toy_env even_model 0 0 1 1) 0 0 1
    ∧ - margin (train_one_pair toy_env even_model 0 0 1 1) 0 0 1
        < - margin (even_model : BPR ℚ) 0 0 1 := by
  have h := ((margin_after_plain_step toy_env even_model 0 0 1 1 rfl rfl (by decide)).2.1
    (by norm_num [even_model])
    (by rw [even_hinge_gradient]; norm_num [even_model, dot])).1
    (by rw [even_hinge_gradient]; norm_num)
  exact ⟨rfl, rfl, by decide, by norm_num [even_model],
    by rw [even_hinge_gradient]; norm_num, h.1,
    h.2 (fun x => - x) (fun a b hab => neg_lt_neg hab)⟩

/-- C8 as stated fails: on the all-ones model (`lambda = 0`, no adaptive scaling,
`learn_rate = 1/10`, dot-product-plus-bias score) the margin of `(0, 0, 1)` is 0, the
loss gradient is `1 - sigmoid(0) = 1/2`, and after `train_one_pair(0, 0, 1, 1)` the margin
is `-1/5`: it has strictly decreased and the logistic loss has strictly increased. -/
theorem margin_falls_under_spec_gradient :
    (even_model : BPR ℝ).lambda_ = 0 ∧ (even_model : BPR ℝ).using_adagrad_ = false
    ∧ 0 < (even_model : BPR ℝ).learn_rate_
    ∧ pair_gradient (spec_env Real.exp Real.sqrt (fun _ (g : Unit) => (1, g)))
          even_model 0 0 1 1
        = 1 - sigmoid Real.exp (margin even_model 0 0 1)
    ∧ margin (even_model : BPR ℝ) 0 0 1 = 0
    ∧ margin (train_one_pair (spec_env Real.exp Real.sqrt (fun _ (g : Unit) => (1, g)))
          even_model 0 0 1 1) 0 0 1 = - (1 / 5)
    ∧ margin (train_one_pair (spec_env Real.exp Real.sqrt (fun _ (g : Unit) => (1, g)))
          even_model 0 0 1 1) 0 0 1 < margin (even_model : BPR ℝ) 0 0 1
    ∧ logistic_loss Real.exp Real.log (margin (even_model : BPR ℝ) 0 0 1)
        < logistic_loss Real.exp Real.log
            (margin (train_one_pair
              (spec_env Real.exp Real.sqrt (fun _ (g : Unit) => (1, g)))
              even_model 0 0 1 1) 0 0 1) := by
  have hm : margin (train_one_pair
      (spec_env Real.exp Real.sqrt (fun _ (g : Unit) => (1, g))) even_model 0 0 1 1) 0 0 1
      = - (1 / 5) := by
    rw [margin_train_one_pair _ _ _ _ _ _ rfl rfl (by decide), even_gradient, even_margin]
    simp [even_model, dot]
    norm_num
  refine ⟨rfl, rfl, by norm_num [even_model], ?_, even_margin, hm, ?_, ?_⟩
  · rw [even_gradient, even_margin]; simp [sigmoid]; norm_num
  · rw [hm, even_margin]; norm_num
  · rw [hm, even_margin]
    unfold logistic_loss
    apply Real.log_lt_log
    · positivity
    · have : Real.exp (-0) < Real.exp (-(-(1 / 5))) := Real.exp_lt_exp.2 (by norm_num)
      linarith

/-- The step-size premise of C8 is needed: with the hinge gradient `-1` and learning rate
10 the first-order step overshoots, and the margin of `(0, 0, 1)` falls from 0 to `-320`. -/
theorem margin_falls_at_large_step :
    pair_gradient toy_env steep_model 0 0 1 1 = -1
    ∧ margin steep_model 0 0 1 = 0
    ∧ margin (train_one_pair toy_env steep_model 0 0 1 1) 0 0 1 = -320 := by
  have hg : pair_gradient toy_env steep_model 0 0 1 1 = -1 := by
    simp [pair_gradient, toy_env, predict_dot_bias, steep_model, even_model, dot]
    norm_num
  have hm : margin steep_model 0 0 1 = 0 := by
    simp [margin, predict_dot_bias, steep_model, even_model, dot]
    norm_num
  refine ⟨hg, hm, ?_⟩
  rw [margin_train_one_pair _ _ _ _ _ _ rfl rfl (by decide), hg, hm]
  simp [steep_model, even_model, dot]
  norm_num

/-- The strict change of C8 needs exact arithmetic. In binary64 with the bias term off,
`lambda = 0`, `learn_rate = 1`, user coordinate `2 ^ (-60)` and both item coordinates 1, the
margin of `(0, 0, 1)` is 0, the hinge gradient is `-1` and the step-size premise holds
(`0 < 2 * |u|^2`), but the increments `2 ^ (-60)` of the item coordinates are rounded away:
no parameter changes and the margin stays 0. -/
theorem margin_kept_by_rounding :
    faint_model.lambda_ = 0 ∧ faint_model.using_adagrad_ = false
    ∧ pair_gradient f64_env faint_model 0 0 1 1 = -1
    ∧ f64_predict faint_model 0 0 - f64_predict faint_model 0 1 = 0
    ∧ (train_one_pair f64_env faint_model 0 0 1 1).uv_ 0 0 = faint_model.uv_ 0 0
    ∧ (train_one_pair f64_env faint_model 0 0 1 1).iv_ 0 0 = faint_model.iv_ 0 0
    ∧ (train_one_pair f64_env faint_model 0 0 1 1).iv_ 1 0 = faint_model.iv_ 1 0
    ∧ f64_predict (train_one_pair f64_env faint_model 0 0 1 1) 0 0
        - f64_predict (train_one_pair f64_env faint_model 0 0 1 1) 0 1 = 0 := by
  refine ⟨rfl, rfl, ?_, ?_, ?_, ?_, ?_, ?_⟩ <;> decide

end margin_theorems

section change_theorems
variable {R G : Type} [Field R]

end change_theorems

section degenerate_theorems
variable {R G : Type} [Add R] [Sub R] [Mul R] [Div R] [Neg R] [OfNat R 2]

/-- C11, as the code has it. Without adaptive scaling, the degenerate call
`train_one_pair(u, i, i, label)` with loss gradient `g` decrements the entries of item `i`
twice in turn, by `lr` times the gradient of the positive and then of the negative item,
both computed from the values before the call:
`itemvec(i)' = (itemvec(i) - lr*(g*uservec(u) + 2*lambda*itemvec(i)))
  - lr*(-g*uservec(u) + 2*lambda*itemvec(i))`, with the bias term
`bias(i)' = (bias(i) - lr*(g + 2*lambda*bias(i))) - lr*(-g + 2*lambda*bias(i))`, and
`uservec(u)' = uservec(u) - lr*(g*(itemvec(i) - itemvec(i)) + 2*lambda*uservec(u))`; no
accumulator changes and, without the bias term, no bias. This part uses no law of
arithmetic. In exact arithmetic (any field in place of `double`) the loss-gradient
contributions cancel and only the shrinkage of the regulariser remains:
`uservec(u)' = (1 - 2*lr*lambda) * uservec(u)`,
`itemvec(i)' = (1 - 4*lr*lambda) * itemvec(i)` and, with the bias term,
`bias(i)' = (1 - 4*lr*lambda) * bias(i)`; with `lambda = 0` the call then changes no
parameter. -/
theorem train_one_pair_same_item (env : Collab R G) (m : BPR R) (uid iid : Nat) (rui : R)
    (hada : m.using_adagrad_ = false) :
    ((∀ k, (train_one_pair env m uid iid iid rui).uv_ uid k
        = m.uv_ uid k - m.learn_rate_ *
            (pair_gradient env m uid iid iid rui * (m.iv_ iid k - m.iv_ iid k)
              + 2 * m.lambda_ * m.uv_ uid k))
      ∧ (∀ k, (train_one_pair env m uid iid iid rui).iv_ iid k
        = m.iv_ iid k
            - m.learn_rate_ * (pair_gradient env m uid iid iid rui * m.uv_ uid k
                + 2 * m.lambda_ * m.iv_ iid k)
            - m.learn_rate_ * (- pair_gradient env m uid iid iid rui * m.uv_ uid k
                + 2 * m.lambda_ * m.iv_ iid k))
      ∧ (m.using_bias_term_ = true →
          (train_one_pair env m uid iid iid rui).ib_ iid
            = m.ib_ iid
                - m.learn_rate_ * (pair_gradient env m uid iid iid rui
                    + 2 * m.lambda_ * m.ib_ iid)
                - m.learn_rate_ * (- pair_gradient env m uid iid iid rui
                    + 2 * m.lambda_ * m.ib_ iid))
      ∧ (m.using_bias_term_ = false → (train_one_pair env m uid iid iid rui).ib_ = m.ib_)
      ∧ (train_one_pair env m uid iid iid rui).uv_ag_ = m.uv_ag_
      ∧ (train_one_pair env m uid iid iid rui).iv_ag_ = m.iv_ag_
      ∧ (train_one_pair env m uid iid iid rui).ib_ag_ = m.ib_ag_)
    ∧ (∀ (F : Type) [Field F] (fenv : Collab F G) (fm : BPR F) (frui : F),
        fm.using_adagrad_ = false →
        (∀ k, (train_one_pair fenv fm uid iid iid frui).uv_ uid k
            = (1 - 2 * fm.learn_rate_ * fm.lambda_) * fm.uv_ uid k)
        ∧ (∀ k, (train_one_pair fenv fm uid iid iid frui).iv_ iid k
            = (1 - 4 * fm.learn_rate_ * fm.lambda_) * fm.iv_ iid k)
        ∧ (fm.using_bias_term_ = true →
            (train_one_pair fenv fm uid iid iid frui).ib_ iid
              = (1 - 4 * fm.learn_rate_ * fm.lambda_) * fm.ib_ iid)
        ∧ (fm.lambda_ = 0 →
            (train_one_pair fenv fm uid iid iid frui).uv_ = fm.uv_
            ∧ (train_one_pair fenv fm uid iid iid frui).iv_ = fm.iv_
            ∧ (train_one_pair fenv fm uid iid iid frui).ib_ = fm.ib_)) := by
  refine ⟨⟨fun k => ?_, fun k => ?_, fun hbias => ?_, fun hbias => ?_, ?_, ?_, ?_⟩,
    fun F _ fenv fm frui fada => ⟨fun k => ?_, fun k => ?_, fun hbias => ?_, fun hlam => ?_⟩⟩
  · simp [train_one_pair, apply_block, adagrad_block, raw_gradients, raw_gradients_at, hada]
  · simp [train_one_pair, apply_block, adagrad_block, raw_gradients, raw_gradients_at, hada]
  · simp [train_one_pair, apply_block, adagrad_block, raw_gradients, raw_gradients_at, hada,
      hbias]
  · simp [train_one_pair, apply_block, adagrad_block, raw_gradients, raw_gradients_at, hada,
      hbias]
  · simp [train_one_pair, apply_block, adagrad_block, raw_gradients, raw_gradients_at, hada]
  · simp [train_one_pair, apply_block, adagrad_block, raw_gradients, raw_gradients_at, hada]
  · simp [train_one_pair, apply_block, adagrad_block, raw_gradients, raw_gradients_at, hada]
  · simp [train_one_pair, apply_block, adagrad_block, raw_gradients, raw_gradients_at, fada]
    ring
  · simp [train_one_pair, apply_block, adagrad_block, raw_gradients, raw_gradients_at, fada]
    ring
  · simp [train_one_pair, apply_block, adagrad_block, raw_gradients, raw_gradients_at, fada,
      hbias]
    ring
  · cases hbias : fm.using_bias_term_ <;>
      simp [train_one_pair, apply_block, adagrad_block, raw_gradients, raw_gradients_at,
        fada, hbias, hlam]

/-- C11 at the scenario without adaptive scaling over the rationals (`lr = 1/10`,
`lambda = 1/100`), call `(0, 1, 1, 1)`: the user coordinate `1/2` shrinks by the factor
`499/500`, the item coordinate `1/4` by the factor `249/250`. And in binary64
(`lr = 1`, `lambda = 0`, user coordinate `2 ^ 60`, item coordinate `1/4`, hinge gradient
`-1`), call `(0, 0, 0, 1)`: the item coordinate is `(1/4 - 1 * (-(2 ^ 60))) - 1 * 2 ^ 60`
as the code computes it. -/
theorem train_one_pair_same_item_witness :
    plain_model.using_adagrad_ = false
    ∧ (train_one_pair toy_env plain_model 0 1 1 1).uv_ 0 0 = 499 / 1000
    ∧ (train_one_pair toy_env plain_model 0 1 1 1).iv_ 1 0 = 249 / 1000
    ∧ lopsided_model.using_adagrad_ = false
    ∧ (train_one_pair f64_env lopsided_model 0 0 0 1).iv_ 0 0
        = F64.fin false 1 (-2) - 1 * - F64.fin false 1 60 - 1 * F64.fin false 1 60 := by
  obtain ⟨h1, h2, _, _⟩ :=
    (train_one_pair_same_item toy_env plain_model 0 1 1 rfl).2 ℚ toy_env plain_model 1 rfl
  obtain ⟨_, h3, _⟩ := (train_one_pair_same_item f64_env lopsided_model 0 0 1 rfl).1
  rw [h1 0, h2 0, h3 0]
  refine ⟨rfl, ?_, ?_, rfl, by decide⟩ <;> norm_num [plain_model, toy_model]

/-- C11 as stated fails in binary64. No adaptive scaling, `lambda = 0`, `learn_rate = 1`,
user coordinate `2 ^ 60`, item coordinate `1/4`, hinge gradient `-1`. In the degenerate
call `(0, 0, 0, 1)` line 104 stores `1/4 + 2 ^ 60`, which rounds to `2 ^ 60`, and line 105
subtracts `2 ^ 60` again: the item coordinate is 0 after the call and was `1/4` before,
where the claim has a no-op. -/
theorem same_item_call_loses_row :
    lopsided_model.using_adagrad_ = false
    ∧ lopsided_model.lambda_ = 0
    ∧ pair_gradient f64_env lopsided_model 0 0 0 1 = -1
    ∧ lopsided_model.iv_ 0 0 = F64.fin false 1 (-2)
    ∧ lopsided_model.iv_ 0 0
        - lopsided_model.learn_rate_ * (raw_gradients f64_env lopsided_model 0 0 0 1).iv_grad 0
        = F64.fin false 1 60
    ∧ (train_one_pair f64_env lopsided_model 0 0 0 1).iv_ 0 0 = 0
    ∧ (train_one_pair f64_env lopsided_model 0 0 0 1).iv_ 0 0 ≠ lopsided_model.iv_ 0 0 := by
  refine ⟨rfl, rfl, ?_, rfl, ?_, ?_, ?_⟩ <;> decide

end degenerate_theorems

section conservation_theorems
variable {R G : Type} [Field R]

/-- C14, as the code has it, in exact arithmetic. With `lambda = 0` and without adaptive
scaling, `train_one_pair(u, i, j, label)` on items below `num_items_`, also for `i = j` and
whatever the loss gradient, leaves the sum of the item biases over all items and,
coordinate by coordinate, the sum of the item latent vectors over all items as they were;
for `i ≠ j` the change of item `i` is the negation of the change of item `j`. So the two
sums are the same after any list of such invocations and after a whole
`train_one_iteration` on a dataset whose rated items and sampled negatives are below
`num_items_`, whichever negatives are drawn. -/
theorem item_sums_conserved (env : Collab R G) (m : BPR R)
    (hlam : m.lambda_ = 0) (hada : m.using_adagrad_ = false) :
    (∀ (uid iid jid : Nat) (rui : R), iid < m.num_items_ → jid < m.num_items_ →
        Finset.sum (Finset.range m.num_items_) (train_one_pair env m uid iid jid rui).ib_
            = Finset.sum (Finset.range m.num_items_) m.ib_
        ∧ ∀ k, Finset.sum (Finset.range m.num_items_)
              (fun x => (train_one_pair env m uid iid jid rui).iv_ x k)
            = Finset.sum (Finset.range m.num_items_) (fun x => m.iv_ x k))
    ∧ (∀ (uid iid jid : Nat) (rui : R), iid ≠ jid →
        (train_one_pair env m uid iid jid rui).ib_ iid - m.ib_ iid
            = - ((train_one_pair env m uid iid jid rui).ib_ jid - m.ib_ jid)
        ∧ ∀ k, (train_one_pair env m uid iid jid rui).iv_ iid k - m.iv_ iid k
            = - ((train_one_pair env m uid iid jid rui).iv_ jid k - m.iv_ jid k))
    ∧ (∀ cs : List (Call R), (∀ c ∈ cs, c.iid < m.num_items_ ∧ c.jid < m.num_items_) →
        Finset.sum (Finset.range m.num_items_) (run_calls env m cs).ib_
            = Finset.sum (Finset.range m.num_items_) m.ib_
        ∧ ∀ k, Finset.sum (Finset.range m.num_items_) (fun x => (run_calls env m cs).iv_ x k)
            = Finset.sum (Finset.range m.num_items_) (fun x => m.iv_ x k))
    ∧ (∀ rng : G,
        (∀ uid item_map, m.user_rated_items_ uid = some item_map →
          ∀ x ∈ item_map, x < m.num_items_) →
        (∀ uid item_map g, m.user_rated_items_ uid = some item_map →
          (env.sample_negative_item item_map g).1 < m.num_items_) →
        Finset.sum (Finset.range m.num_items_) (train_one_iteration env m rng).reached.self.ib_
            = Finset.sum (Finset.range m.num_items_) m.ib_
        ∧ ∀ k, Finset.sum (Finset.range m.num_items_)
              (fun x => (train_one_iteration env m rng).reached.self.iv_ x k)
            = Finset.sum (Finset.range m.num_items_) (fun x => m.iv_ x k)) := by
  refine ⟨fun uid iid jid rui hi hj =>
      train_one_pair_item_sums env m uid iid jid rui hlam hada hi hj,
    fun uid iid jid rui hij => ?_,
    fun cs h => run_calls_item_sums env m cs hlam hada h,
    fun rng hrated hdraw => ?_⟩
  · have hji : jid ≠ iid := fun h => hij h.symm
    cases hbias : m.using_bias_term_ <;>
      simp [train_one_pair, apply_block, adagrad_block, raw_gradients, raw_gradients_at,
        hada, hbias, hlam, Function.update_noteq hij, Function.update_noteq hji]
  · rw [train_one_iteration_self]
    refine run_calls_item_sums env m _ hlam hada (fun c hc => ?_)
    rw [train_one_iteration_calls] at hc
    obtain ⟨_, _, _, item_map, h4, h5, _, g, h7⟩ := mem_user_calls env _ _ _ _ _ c hc
    exact ⟨hrated _ _ h4 _ h5, by rw [h7]; exact hdraw _ _ g h4⟩

/-- C14 at the two-user model (`lambda = 0`, no adaptive scaling, three items): after the
epoch the biases still sum to 0 and the latent coordinates to `0 + 1/4 + 2/4`. -/
theorem item_sums_conserved_witness :
    swap_model.lambda_ = 0 ∧ swap_model.using_adagrad_ = false
    ∧ Finset.sum (Finset.range 3) (train_one_iteration toy_env swap_model 0).reached.self.ib_
        = 0
    ∧ Finset.sum (Finset.range 3)
          (fun x => (train_one_iteration toy_env swap_model 0).reached.self.iv_ x 0)
        = 3 / 4 := by
  have h := (item_sums_conserved toy_env swap_model rfl rfl).2.2.2 0
    (fun uid item_map hr x hx => by
      have h3 : swap_model.num_items_ = 3 := rfl
      rw [h3]
      rcases swap_model_rated uid item_map hr with e | e <;> simp [e] at hx <;> omega)
    (fun uid item_map g _ => toy_sample_lt item_map g)
  have h3 : swap_model.num_items_ = 3 := rfl
  rw [h3] at h
  refine ⟨rfl, rfl, ?_, ?_⟩
  · rw [h.1]; simp [Finset.sum_range_succ, swap_model, toy_model]
  · rw [h.2 0]; simp [Finset.sum_range_succ, swap_model, toy_model]; norm_num

/-- C14 as stated fails in binary64. No adaptive scaling, `lambda = 0`, `learn_rate = 1`,
two items, both below `num_items_`; `bias(0) = 2 ^ 53`, `bias(1) = 0`, margin 0 and hinge
gradient `-1`. In `train_one_pair(0, 0, 1, 1)` line 100 stores `2 ^ 53 + 1`, which rounds
to `2 ^ 53`, and line 101 stores `-1`: the change of item 0 is 0, the change of item 1 is
`-1`, and the sum of the biases falls from `2 ^ 53` to `2 ^ 53 - 1`. The same happens in
the epoch, which is this one invocation. -/
theorem item_bias_sum_changes :
    heavy_model.lambda_ = 0 ∧ heavy_model.using_adagrad_ = false
    ∧ heavy_model.num_items_ = 2
    ∧ pair_gradient f64_env heavy_model 0 0 1 1 = -1
    ∧ (train_one_pair f64_env heavy_model 0 0 1 1).ib_ 0 - heavy_model.ib_ 0 = 0
    ∧ (train_one_pair f64_env heavy_model 0 0 1 1).ib_ 1 - heavy_model.ib_ 1 = -1
    ∧ heavy_model.ib_ 0 + heavy_model.ib_ 1 = F64.fin false 1 53
    ∧ (train_one_pair f64_env heavy_model 0 0 1 1).ib_ 0
        + (train_one_pair f64_env heavy_model 0 0 1 1).ib_ 1
        = F64.fin false 9007199254740991 0
    ∧ (train_one_iteration f64_env heavy_model 0).reached.self.ib_ 0
        + (train_one_iteration f64_env heavy_model 0).reached.self.ib_ 1
        = F64.fin false 9007199254740991 0 := by
  refine ⟨rfl, rfl, rfl, ?_, ?_, ?_, ?_, ?_, ?_⟩ <;> decide

end conservation_theorems

section adaptive_theorems
set_option maxRecDepth 8000
variable {R G : Type} [LinearOrderedField R]

/-- C13, as the code has it, in exact arithmetic with an exact square root. With adaptive
scaling, `beta ≥ 0`, `learn_rate ≥ 0`, non-negative accumulators, a square root with
`sqrt x ≥ 0` and `sqrt x * sqrt x = x` on the non-negative numbers, and distinct items
`i ≠ j`: every rescaled gradient coordinate `grad / (beta + sqrt(acc + grad^2))` whose
divisor is not zero has absolute value at most 1, and `train_one_pair` moves the
corresponding coordinate of `bias(i)`, `bias(j)`, `uservec(u)`, `itemvec(i)`, `itemvec(j)`
by at most `learn_rate`, whatever the loss gradient, `lambda` and the parameters are. -/
theorem adagrad_step_bounded (env : Collab R G) (m : BPR R) (uid iid jid : Nat) (rui : R)
    (hada : m.using_adagrad_ = true) (hbeta : 0 ≤ m.beta_) (hlr : 0 ≤ m.learn_rate_)
    (hacc : ∀ x k, 0 ≤ m.uv_ag_ x k ∧ 0 ≤ m.iv_ag_ x k ∧ 0 ≤ m.ib_ag_ x)
    (hsq : ∀ x, 0 ≤ x → 0 ≤ env.sqrt x ∧ env.sqrt x * env.sqrt x = x)
    (hij : iid ≠ jid) :
    (m.beta_ + env.sqrt (m.ib_ag_ iid + (raw_gradients env m uid iid jid rui).ib_grad ^ 2) ≠ 0 →
        |(raw_gradients env m uid iid jid rui).ib_grad
            / (m.beta_
              + env.sqrt (m.ib_ag_ iid + (raw_gradients env m uid iid jid rui).ib_grad ^ 2))|
          ≤ 1
        ∧ |(train_one_pair env m uid iid jid rui).ib_ iid - m.ib_ iid| ≤ m.learn_rate_)
    ∧ (m.beta_ + env.sqrt (m.ib_ag_ jid + (raw_gradients env m uid iid jid rui).jb_grad ^ 2) ≠ 0 →
        |(raw_gradients env m uid iid jid rui).jb_grad
            / (m.beta_
              + env.sqrt (m.ib_ag_ jid + (raw_gradients env m uid iid jid rui).jb_grad ^ 2))|
          ≤ 1
        ∧ |(train_one_pair env m uid iid jid rui).ib_ jid - m.ib_ jid| ≤ m.learn_rate_)
    ∧ (∀ k, m.beta_
          + env.sqrt (m.uv_ag_ uid k + (raw_gradients env m uid iid jid rui).uv_grad k ^ 2) ≠ 0 →
        |(raw_gradients env m uid iid jid rui).uv_grad k
            / (m.beta_ + env.sqrt
                (m.uv_ag_ uid k + (raw_gradients env m uid iid jid rui).uv_grad k ^ 2))|
          ≤ 1
        ∧ |(train_one_pair env m uid iid jid rui).uv_ uid k - m.uv_ uid k| ≤ m.learn_rate_)
    ∧ (∀ k, m.beta_
          + env.sqrt (m.iv_ag_ iid k + (raw_gradients env m uid iid jid rui).iv_grad k ^ 2) ≠ 0 →
        |(raw_gradients env m uid iid jid rui).iv_grad k
            / (m.beta_ + env.sqrt
                (m.iv_ag_ iid k + (raw_gradients env m uid iid jid rui).iv_grad k ^ 2))|
          ≤ 1
        ∧ |(train_one_pair env m uid iid jid rui).iv_ iid k - m.iv_ iid k| ≤ m.learn_rate_)
    ∧ (∀ k, m.beta_
          + env.sqrt (m.iv_ag_ jid k + (raw_gradients env m uid iid jid rui).jv_grad k ^ 2) ≠ 0 →
        |(raw_gradients env m uid iid jid rui).jv_grad k
            / (m.beta_ + env.sqrt
                (m.iv_ag_ jid k + (raw_gradients env m uid iid jid rui).jv_grad k ^ 2))|
          ≤ 1
        ∧ |(train_one_pair env m uid iid jid rui).iv_ jid k - m.iv_ jid k| ≤ m.learn_rate_) := by
  have hji : jid ≠ iid := fun h => hij h.symm
  have key : ∀ acc g : R, 0 ≤ acc → m.beta_ + env.sqrt (acc + g ^ 2) ≠ 0 →
      |g / (m.beta_ + env.sqrt (acc + g ^ 2))| ≤ 1 :=
    fun acc g ha hne => rescaled_abs_le_one env.sqrt hsq m.beta_ acc g hbeta ha hne
  refine ⟨fun hne => ⟨key _ _ (hacc iid 0).2.2 hne, ?_⟩,
    fun hne => ⟨key _ _ (hacc jid 0).2.2 hne, ?_⟩,
    fun k hne => ⟨key _ _ (hacc uid k).1 hne, ?_⟩,
    fun k hne => ⟨key _ _ (hacc iid k).2.1 hne, ?_⟩,
    fun k hne => ⟨key _ _ (hacc jid k).2.1 hne, ?_⟩⟩
  · cases hbias : m.using_bias_term_
    · have e : (train_one_pair env m uid iid jid rui).ib_ iid = m.ib_ iid := by
        simp [train_one_pair, apply_block, adagrad_block, adagrad_vectors, raw_gradients,
          raw_gradients_at, hada, hbias]
      rw [e]; simpa using hlr
    · have e : (train_one_pair env m uid iid jid rui).ib_ iid = m.ib_ iid - m.learn_rate_ *
          ((raw_gradients env m uid iid jid rui).ib_grad / (m.beta_ + env.sqrt
            (m.ib_ag_ iid + (raw_gradients env m uid iid jid rui).ib_grad ^ 2))) := by
        simp [train_one_pair, apply_block, adagrad_block, adagrad_vectors, adagrad_bias,
          raw_gradients, raw_gradients_at, hada, hbias, Function.update_noteq hij,
          Function.update_noteq hji, sq]
      rw [e]
      exact step_abs_le _ _ _ hlr (key _ _ (hacc iid 0).2.2 hne)
  · cases hbias : m.using_bias_term_
    · have e : (train_one_pair env m uid iid jid rui).ib_ jid = m.ib_ jid := by
        simp [train_one_pair, apply_block, adagrad_block, adagrad_vectors, raw_gradients,
          raw_gradients_at, hada, hbias]
      rw [e]; simpa using hlr
    · have e : (train_one_pair env m uid iid jid rui).ib_ jid = m.ib_ jid - m.learn_rate_ *
          ((raw_gradients env m uid iid jid rui).jb_grad / (m.beta_ + env.sqrt
            (m.ib_ag_ jid + (raw_gradients env m uid iid jid rui).jb_grad ^ 2))) := by
        simp [train_one_pair, apply_block, adagrad_block, adagrad_vectors, adagrad_bias,
          raw_gradients, raw_gradients_at, hada, hbias, Function.update_noteq hij,
          Function.update_noteq hji, sq]
      rw [e]
      exact step_abs_le _ _ _ hlr (key _ _ (hacc jid 0).2.2 hne)
  · have e : (train_one_pair env m uid iid jid rui).uv_ uid k = m.uv_ uid k - m.learn_rate_ *
        ((raw_gradients env m uid iid jid rui).uv_grad k / (m.beta_ + env.sqrt
          (m.uv_ag_ uid k + (raw_gradients env m uid iid jid rui).uv_grad k ^ 2))) := by
      cases hbias : m.using_bias_term_ <;>
        simp [train_one_pair, apply_block, adagrad_block, adagrad_vectors, adagrad_bias,
          raw_gradients, raw_gradients_at, hada, hbias, sq, add_comm]
    rw [e]
    exact step_abs_le _ _ _ hlr (key _ _ (hacc uid k).1 hne)
  · have e : (train_one_pair env m uid iid jid rui).iv_ iid k = m.iv_ iid k - m.learn_rate_ *
        ((raw_gradients env m uid iid jid rui).iv_grad k / (m.beta_ + env.sqrt
          (m.iv_ag_ iid k + (raw_gradients env m uid iid jid rui).iv_grad k ^ 2))) := by
      cases hbias : m.using_bias_term_ <;>
        simp [train_one_pair, apply_block, adagrad_block, adagrad_vectors, adagrad_bias,
          raw_gradients, raw_gradients_at, hada, hbias, Function.update_noteq hij,
          Function.update_noteq hji, sq, add_comm]
    rw [e]
    exact step_abs_le _ _ _ hlr (key _ _ (hacc iid k).2.1 hne)
  · have e : (train_one_pair env m uid iid jid rui).iv_ jid k = m.iv_ jid k - m.learn_rate_ *
        ((raw_gradients env m uid iid jid rui).jv_grad k / (m.beta_ + env.sqrt
          (m.iv_ag_ jid k + (raw_gradients env m uid iid jid rui).jv_grad k ^ 2))) := by
      cases hbias : m.using_bias_term_ <;>
        simp [train_one_pair, apply_block, adagrad_block, adagrad_vectors, adagrad_bias,
          raw_gradients, raw_gradients_at, hada, hbias, Function.update_noteq hij,
          Function.update_noteq hji, sq, add_comm]
    rw [e]
    exact step_abs_le _ _ _ hlr (key _ _ (hacc jid k).2.1 hne)

/-- C13 at the all-ones object with adaptive scaling, over the reals with the real square
root and the logistic gradient, update `(0, 0, 1, 1)`: `beta = 1` keeps every divisor away
from zero, and the bias of item 0 and the user row move by at most `learn_rate = 1/10`. -/
theorem adagrad_step_bounded_witness :
    (adaptive_model : BPR ℝ).using_adagrad_ = true
    ∧ 0 ≤ (adaptive_model : BPR ℝ).beta_ ∧ 0 ≤ (adaptive_model : BPR ℝ).learn_rate_
    ∧ (∀ x, 0 ≤ x → 0 ≤ Real.sqrt x ∧ Real.sqrt x * Real.sqrt x = x)
    ∧ (0 : Nat) ≠ 1
    ∧ |(train_one_pair (spec_env Real.exp Real.sqrt (fun _ (g : Unit) => (1, g)))
          adaptive_model 0 0 1 1).ib_ 0 - (adaptive_model : BPR ℝ).ib_ 0| ≤ 1 / 10
    ∧ ∀ k, |(train_one_pair (spec_env Real.exp Real.sqrt (fun _ (g : Unit) => (1, g)))
          adaptive_model 0 0 1 1).uv_ 0 k - (adaptive_model : BPR ℝ).uv_ 0 k| ≤ 1 / 10 := by
  have hb : (adaptive_model : BPR ℝ).beta_ = 1 := rfl
  have hl : (adaptive_model : BPR ℝ).learn_rate_ = 1 / 10 := rfl
  have hs : ∀ x : ℝ, 0 ≤ x → 0 ≤ Real.sqrt x ∧ Real.sqrt x * Real.sqrt x = x :=
    fun x hx => ⟨Real.sqrt_nonneg x, Real.mul_self_sqrt hx⟩
  have hne : ∀ y : ℝ, (adaptive_model : BPR ℝ).beta_ + Real.sqrt y ≠ 0 := fun y => by
    have := Real.sqrt_nonneg y
    rw [hb]; linarith
  have h := adagrad_step_bounded (spec_env Real.exp Real.sqrt (fun _ (g : Unit) => (1, g)))
    (adaptive_model : BPR ℝ) 0 0 1 1 rfl (by rw [hb]; norm_num) (by rw [hl]; norm_num)
    (fun x k => by simp [adaptive_model, even_model]) hs (by decide)
  rw [hl] at h
  exact ⟨rfl, by rw [hb]; norm_num, by rw [hl]; norm_num, hs, by decide,
    (h.1 (hne _)).2, fun k => (h.2.2.1 k (hne _)).2⟩

/-- C13 as stated fails in binary64. Adaptive scaling, `beta = 0`, `learn_rate = 1`,
`lambda = 0`, every accumulator 0, user coordinate 1, item coordinates 0 and
`9 * 2 ^ (-540)`. In `train_one_pair(0, 0, 1, 1)` the raw gradient of the user coordinate
is `9 * 2 ^ (-540)`; its square `81 * 2 ^ (-1080)` underflows to the smallest positive
double `2 ^ (-1074)`, whose root is `2 ^ (-537)`: the divisor is not zero, the rescaled
gradient is `9/8 > 1`, and the user coordinate moves from 1 to `-1/8`, by more than
`learn_rate`. -/
theorem rescaled_gradient_exceeds_one :
    tiny_model.using_adagrad_ = true ∧ tiny_model.beta_ = 0 ∧ tiny_model.learn_rate_ = 1
    ∧ tiny_model.uv_ag_ 0 0 = 0
    ∧ (raw_gradients f64_env tiny_model 0 0 1 1).uv_grad 0 = F64.fin false 9 (-540)
    ∧ (train_one_pair f64_env tiny_model 0 0 1 1).uv_ag_ 0 0 = F64.fin false 1 (-1074)
    ∧ f64_env.sqrt ((train_one_pair f64_env tiny_model 0 0 1 1).uv_ag_ 0 0)
        + tiny_model.beta_ = F64.fin false 1 (-537)
    ∧ (adagrad_block f64_env 0 0 1 (raw_gradients f64_env tiny_model 0 0 1 1)).uv_grad 0
        = F64.fin false 9 (-3)
    ∧ (1 : F64) < F64.fin false 9 (-3)
    ∧ tiny_model.uv_ 0 0 = 1
    ∧ (train_one_pair f64_env tiny_model 0 0 1 1).uv_ 0 0 = F64.fin true 1 (-3)
    ∧ tiny_model.learn_rate_
        < tiny_model.uv_ 0 0 - (train_one_pair f64_env tiny_model 0 0 1 1).uv_ 0 0 := by
  refine ⟨rfl, rfl, rfl, rfl, ?_, ?_, ?_, ?_, ?_, rfl, ?_, ?_⟩ <;> decide

end adaptive_theorems

section guard_theorems
variable {R G : Type} [LinearOrderedField R]

end guard_theorems

end libcf
